import Mathlib

/-!
Verification development for the `multipart` push parser
(`src/multipart.py`, class `PushMultipartParser` and friends).

The Python source is shallowly embedded: byte strings become `List Nat`
(one `Nat` per byte value), Python `str` becomes `List Char`, and the
generator-based `parse` method becomes a pure function returning the list
of yielded events together with the successor parser state and an optional
raised error.  All recursion is structural (explicit fuel where the Python
loop is unbounded), so every definition evaluates inside the kernel.
-/

set_option maxRecDepth 10000

namespace Multipart

/-- Byte strings (`bytes` / `bytearray` in the source) as lists of byte values. -/
abbrev Bytes := List Nat

/-- Python `str` values as lists of characters. -/
abbrev PyStr := List Char

/-- Convert an ASCII Lean string literal to the byte list it denotes. -/
def strToBytes (s : String) : Bytes := s.data.map Char.toNat

/-- Convert a Lean string literal to a `PyStr`. -/
def str2chars (s : String) : PyStr := s.data

/-- Python slice `b[i:j]` for `0 ≤ i ≤ j` (with Python's clamping). -/
def bslice (b : Bytes) (i j : Nat) : Bytes := (b.drop i).take (j - i)

/-- One probe-and-advance pass of `bytes.find`: try positions `i`, `i+1`, …
guarded by explicit fuel.  Returns the first position `≥ i` at which `p`
occurs in full inside `b`. -/
def bfindFuel (b p : Bytes) : Nat → Nat → Option Nat
  | 0, _ => none
  | fuel + 1, i =>
    if i + p.length ≤ b.length then
      if p.isPrefixOf (b.drop i) then some i else bfindFuel b p fuel (i + 1)
    else none

/-- Python `b.find(p, i)` (as `Option Nat` instead of `-1` for a miss). -/
def bfind (b p : Bytes) (i : Nat) : Option Nat := bfindFuel b p (b.length + 1) i

/-- Byte values of Python's `bytes.strip()` whitespace set `b" \t\n\r\x0b\f"`. -/
def isSpaceByte (c : Nat) : Bool :=
  c = 32 || c = 9 || c = 10 || c = 13 || c = 11 || c = 12

/-- Python `bytes.strip()` (both ends, ASCII whitespace). -/
def bytesStrip (b : Bytes) : Bytes :=
  ((b.dropWhile isSpaceByte).reverse.dropWhile isSpaceByte).reverse

/-- Python `str` whitespace for `str.strip()` (ASCII subset; the headers the
parser strips are ASCII-checked before stripping matters). -/
def isSpaceChar (c : Char) : Bool :=
  c = ' ' || c = '\t' || c = '\n' || c = '\r' || c.toNat = 11 || c.toNat = 12

/-- Python `str.strip()`. -/
def pyStrip (s : PyStr) : PyStr :=
  ((s.dropWhile isSpaceChar).reverse.dropWhile isSpaceChar).reverse

/-- Python `str.lower()` (ASCII case folding). -/
def pyLower (s : PyStr) : PyStr := s.map Char.toLower

/-- Helper for `pyTitle`: the flag records whether the previous character was
a letter (i.e. whether we are inside a word). -/
def pyTitleAux : Bool → PyStr → PyStr
  | _, [] => []
  | prev, c :: cs =>
    if c.isAlpha then
      (if prev then c.toLower else c.toUpper) :: pyTitleAux true cs
    else
      c :: pyTitleAux false cs

/-- Python `str.title()` (ASCII letters; header names reaching it are
ASCII-checked by the source). -/
def pyTitle (s : PyStr) : PyStr := pyTitleAux false s

/-- Python `str.partition(sep)` for a single-character separator: returns the
part before the first occurrence, whether the separator was found, and the
part after it. -/
def pyPartition : PyStr → Char → PyStr × Bool × PyStr
  | [], _ => ([], false, [])
  | c :: cs, sep =>
    if c = sep then ([], true, cs)
    else
      let (pre, found, post) := pyPartition cs sep
      (c :: pre, found, post)

/-- Python `str.isascii()`. -/
def pyIsAscii (s : PyStr) : Bool := s.all (fun c => c.toNat < 128)

/-- Python `str.isprintable()` restricted to ASCII strings (the source only
evaluates it after `isascii()` has succeeded). -/
def pyIsPrintable (s : PyStr) : Bool :=
  s.all (fun c => 32 ≤ c.toNat && c.toNat ≤ 126)

/-- Python `str.isdecimal()` for ASCII digit strings (non-ASCII decimal
digits are not modelled). -/
def pyIsDecimal (s : PyStr) : Bool := !s.isEmpty && s.all Char.isDigit

/-- Python `int(s)` on a string of ASCII decimal digits. -/
def pyToNat (s : PyStr) : Nat := s.foldl (fun n c => n * 10 + (c.toNat - 48)) 0

/-- Python `str.replace(pat, rep)`: replace every non-overlapping occurrence,
left to right.  The fuel is the length of the subject (each step consumes at
least one character for a non-empty pattern; the source never calls it with
an empty pattern). -/
def pyReplaceFuel (pat rep : PyStr) : Nat → PyStr → PyStr
  | _, [] => []
  | 0, s => s
  | fuel + 1, s@(c :: cs) =>
    if pat ≠ [] && pat.isPrefixOf s then
      rep ++ pyReplaceFuel pat rep fuel (s.drop pat.length)
    else
      c :: pyReplaceFuel pat rep fuel cs

/-- Python `str.replace(pat, rep)` (non-empty `pat`). -/
def pyReplace (s pat rep : PyStr) : PyStr := pyReplaceFuel pat rep s.length s

/-- Substring containment, Python `pat in s`. -/
def pyContainsFuel (pat : PyStr) : Nat → PyStr → Bool
  | 0, s => pat.isPrefixOf s
  | fuel + 1, s =>
    pat.isPrefixOf s ||
      match s with
      | [] => false
      | _ :: cs => pyContainsFuel pat fuel cs

/-- Python `pat in s` for strings. -/
def pyContains (s pat : PyStr) : Bool := pyContainsFuel pat s.length s

/-- The suffix of `s` after the last occurrence of character `c` (the whole
string when `c` does not occur).  This is both `s.rpartition(c)[-1]` and
`s.split(c)[-1]` for a single-character separator. -/
def afterLastChar (s : PyStr) (c : Char) : PyStr :=
  ((s.reverse.takeWhile (fun x => x ≠ c))).reverse

/-- Python string slice `s[i:j]`. -/
def sslice (s : PyStr) (i j : Nat) : PyStr := (s.drop i).take (j - i)

/-- Python `s.find(c)` for a single character, as an `Option`. -/
def pyFindChar (s : PyStr) (c : Char) : Option Nat :=
  s.findIdx? (fun x => x = c)

/-! ### UTF-8 codec

Strict UTF-8, matching Python's `bytes.decode("utf8")` / `str.encode("utf8")`
(the parser's default `header_charset`, which this embedding fixes):
overlong encodings, surrogates and code points above `0x10FFFF` are
rejected. -/

/-- Is `c` a UTF-8 continuation byte (`0x80`–`0xBF`)? -/
def isCont (c : Nat) : Bool := 128 ≤ c && c < 192

/-- Decode one UTF-8 scalar value from the front of the byte list. -/
def utf8DecodeOne : Bytes → Option (Nat × Bytes)
  | [] => none
  | b :: r =>
    if b < 128 then some (b, r)
    else if b < 194 then none          -- bare continuation byte or overlong lead
    else if b < 224 then               -- two-byte form
      match r with
      | c1 :: r1 =>
        if isCont c1 then some ((b - 192) * 64 + (c1 - 128), r1) else none
      | _ => none
    else if b < 240 then               -- three-byte form
      match r with
      | c1 :: c2 :: r2 =>
        if isCont c1 && isCont c2 then
          let v := (b - 224) * 4096 + (c1 - 128) * 64 + (c2 - 128)
          if 2048 ≤ v && !(55296 ≤ v && v ≤ 57343) then some (v, r2) else none
        else none
      | _ => none
    else if b < 245 then               -- four-byte form
      match r with
      | c1 :: c2 :: c3 :: r3 =>
        if isCont c1 && isCont c2 && isCont c3 then
          let v := (b - 240) * 262144 + (c1 - 128) * 4096 + (c2 - 128) * 64 + (c3 - 128)
          if 65536 ≤ v && v ≤ 1114111 then some (v, r3) else none
        else none
      | _ => none
    else none

/-- Decode a whole byte list (fuel = list length; each scalar consumes at
least one byte). -/
def utf8DecodeFuel : Nat → Bytes → Option PyStr
  | _, [] => some []
  | 0, _ => none
  | fuel + 1, bs =>
    match utf8DecodeOne bs with
    | none => none
    | some (v, rest) =>
      match utf8DecodeFuel fuel rest with
      | none => none
      | some cs => some (Char.ofNat v :: cs)

/-- Python `bytes.decode("utf8")` (`none` models `UnicodeDecodeError`). -/
def utf8Decode (bs : Bytes) : Option PyStr := utf8DecodeFuel bs.length bs

/-- Encode one scalar value to UTF-8 bytes. -/
def utf8EncodeChar (c : Char) : Bytes :=
  let v := c.toNat
  if v < 128 then [v]
  else if v < 2048 then [192 + v / 64, 128 + v % 64]
  else if v < 65536 then [224 + v / 4096, 128 + (v / 64) % 64, 128 + v % 64]
  else [240 + v / 262144, 128 + (v / 4096) % 64, 128 + (v / 64) % 64, 128 + v % 64]

/-- Python `str.encode("utf8")`. -/
def utf8Encode (s : PyStr) : Bytes := s.flatMap utf8EncodeChar

/-! ### Structured header values

Model of the module-level regular expressions

* `_token  = "[a-zA-Z0-9-!#$%&'*+.^_`|~]+"`
* `_value  = simple quoted-string | token | slow quoted-string`
* `_option = "; *(token) *= *(value)"`

and of `re.findall(_option, header, i)` as used by `parse_options_header`,
together with the three unquoting helpers. -/

/-- Membership in the `_token` character class (codes spell the literals
`- ! # $ % & ' * + . ^ _` backquote `| ~`). -/
def isTokenChar (c : Char) : Bool :=
  c.isAlphanum ||
    [45, 33, 35, 36, 37, 38, 39, 42, 43, 46, 94, 95, 96, 124, 126].contains c.toNat

/-- The star of the slow quoted-string `"(?:\\.|[^"])*"`: consume units
(backslash-escape first, then any non-quote) greedily with backtracking and
finish at a closing quote.  Returns the star's text and the rest after the
closing quote. -/
def slowQSBody : Nat → PyStr → Option (PyStr × PyStr)
  | 0, _ => none
  | fuel + 1, s =>
    (match s with
     | '\\' :: c :: r =>
       if c ≠ '\n' then
         (slowQSBody fuel r).map (fun p => ('\\' :: c :: p.1, p.2))
       else none
     | _ => none) <|>
    (match s with
     | c :: r =>
       if c ≠ '"' then (slowQSBody fuel r).map (fun p => (c :: p.1, p.2)) else none
     | [] => none) <|>
    (match s with
     | '"' :: r => some ([], r)
     | _ => none)

/-- Try to match one `_option` (`; *key *= *value`) at the head of `suf`.
On success returns the captured key and value (the value capture keeps its
quotes, exactly like the regex group) and the remaining suffix. -/
def matchOption (suf : PyStr) : Option (PyStr × PyStr × PyStr) :=
  match suf with
  | ';' :: r0 =>
    let r1 := r0.dropWhile (fun c => c = ' ')
    let key := r1.takeWhile isTokenChar
    if key = [] then none
    else
      let r2 := (r1.drop key.length).dropWhile (fun c => c = ' ')
      match r2 with
      | '=' :: r3 =>
        let r4 := r3.dropWhile (fun c => c = ' ')
        (match r4 with                      -- simple quoted-string first
         | '"' :: r5 =>
           let run := r5.takeWhile (fun c => c ≠ '\\' && c ≠ '"')
           (match r5.drop run.length with
            | '"' :: r6 => some (key, '"' :: (run ++ ['"']), r6)
            | _ => none)
         | _ => none) <|>
        (let t := r4.takeWhile isTokenChar  -- then a bare token
         if t ≠ [] then some (key, t, r4.drop t.length) else none) <|>
        (match r4 with                      -- then the slow quoted-string
         | '"' :: r5 =>
           (slowQSBody (r5.length + 1) r5).map
             (fun p => (key, '"' :: (p.1 ++ ['"']), p.2))
         | _ => none)
      | _ => none
  | _ => none

/-- `re.findall(_option, s, pos)` modelled on the suffix `s[pos:]`:
scan forward one character at a time; on a match continue after it. -/
def findAllOptions : Nat → PyStr → List (PyStr × PyStr)
  | 0, _ => []
  | _, [] => []
  | fuel + 1, suf =>
    match matchOption suf with
    | some (k, v, rest) => (k, v) :: findAllOptions fuel rest
    | none => findAllOptions fuel suf.tail

/-- `header_unquote(val, filename)` from the source. -/
def header_unquote (val : PyStr) (filename : Bool) : PyStr :=
  match val with
  | [] => []                                 -- `val[0]` is never reached on empty input
  | c :: _ =>
    if c = '"' && val.getLast? = some '"' then
      let v := (val.drop 1).dropLast
      let v :=
        if filename &&
            ((sslice v 1 3 = str2chars ":\\") || (v.take 2 = str2chars "\\\\")) then
          afterLastChar v '\\'
        else v
      pyReplace (pyReplace v (str2chars "\\\\") (str2chars "\\"))
        (str2chars "\\\"") (str2chars "\"")
    else val

/-- `content_disposition_unquote(val, filename)` from the source. -/
def content_disposition_unquote (val : PyStr) (filename : Bool) : PyStr :=
  let percent := fun (v : PyStr) =>
    pyReplace (pyReplace (pyReplace v (str2chars "%0D") (str2chars "\r"))
      (str2chars "%0A") (str2chars "\n")) (str2chars "%22") (str2chars "\"")
  match val with
  | [] => []
  | c :: _ =>
    if c = '"' && val.getLast? = some '"' then
      let v := (val.drop 1).dropLast
      let v :=
        if pyContains v (str2chars "\\\"") then
          pyReplace (pyReplace v (str2chars "\\\\") (str2chars "\\"))
            (str2chars "\\\"") (str2chars "\"")
        else if pyContains v (str2chars "%") then percent v
        else v
      if filename &&
          ((sslice v 1 3 = str2chars ":\\") || (v.take 2 = str2chars "\\\\")) then
        afterLastChar v '\\'
      else v
    else if pyContains val (str2chars "%") then percent val
    else val

/-- Option dictionaries: a Python `dict` with string keys, as an association
list where insertion overwrites an existing key in place. -/
def dInsert (d : List (PyStr × PyStr)) (k v : PyStr) : List (PyStr × PyStr) :=
  if d.any (fun p => p.1 = k) then
    d.map (fun p => if p.1 = k then (k, v) else p)
  else d ++ [(k, v)]

/-- `dict.get` (`none` when absent). -/
def dGet (d : List (PyStr × PyStr)) (k : PyStr) : Option PyStr :=
  (d.find? (fun p => p.1 = k)).map Prod.snd

/-- `parse_options_header(header, unquote=...)`: primary value plus option
dictionary. -/
def parse_options_header (header : PyStr) (unquote : PyStr → Bool → PyStr) :
    PyStr × List (PyStr × PyStr) :=
  match pyFindChar header ';' with
  | none => (pyStrip (pyLower header), [])
  | some i =>
    let opts := (findAllOptions (header.length + 2) (header.drop i)).foldl
      (fun d kv =>
        let k := pyLower kv.1
        dInsert d k (unquote kv.2 (k = str2chars "filename")))
      []
    (pyStrip (pyLower (header.take i)), opts)

/-! ### Errors, events, segments -/

/-- The `MultipartError` hierarchy (plus two model-internal constructors:
`runtime` for the `RuntimeError` of the unreachable state branch, and
`fuel` for exhaustion of the loop's structural recursion bound, which the
bound chosen by `parse` never triggers on a terminating run). -/
inductive Err where
  | ParserError (msg : String)
  | StrictParserError (msg : String)
  | ParserLimitReached (msg : String)
  | ParserStateError (msg : String)
  | runtime (msg : String)
  | fuel
deriving DecidableEq, Repr

/-- The parser states (`_PREAMBLE`, `_HEADER`, `_BODY`, `_COMPLETE`). -/
inductive PState where
  | PREAMBLE
  | HEADER
  | BODY
  | COMPLETE
deriving DecidableEq, Repr

/-- `MultipartSegment`: the per-segment descriptor.  `name` is `none` until
`_close_headers` ran (Python's `self.name = None`).  `clen` is `_clen`
(`-1` for "no Content-Length header") and `size_limit` is `_size_limit`
with `none` for the `math.inf` default. -/
structure MultipartSegment where
  headerlist : List (PyStr × PyStr)
  name : Option PyStr
  filename : Option PyStr
  content_type : Option PyStr
  charset : Option PyStr
  size : Nat
  complete : Bool
  clen : Int
  size_limit : Option Nat
deriving DecidableEq, Repr

/-- The events yielded by `PushMultipartParser.parse`: a segment whose
headers just completed, a non-empty run of body bytes, or the `None`
end-of-segment sentinel. -/
inductive Event where
  | segment (s : MultipartSegment)
  | bodyChunk (b : Bytes)
  | eos
deriving DecidableEq, Repr

/-- `PushMultipartParser`: configuration and mutable state in one record.
`content_length` is an `Int` (`-1` for unknown); `max_segment_size` and
`max_segment_count` use `none` for their `math.inf` defaults;
`header_charset` is fixed to the `"utf8"` default. -/
structure PushParser where
  boundary : Bytes
  content_length : Int
  max_header_size : Nat
  max_header_count : Nat
  max_segment_size : Option Nat
  max_segment_count : Option Nat
  strict : Bool
  parsed : Nat
  fieldcount : Nat
  buffer : Bytes
  current : Option MultipartSegment
  state : PState
  closed : Bool
  error : Option Err
deriving DecidableEq, Repr

/-- `__init__` with the source's defaults. -/
def initParser (boundary : Bytes) : PushParser where
  boundary := boundary
  content_length := -1
  max_header_size := 4096 + 128
  max_header_count := 8
  max_segment_size := none
  max_segment_count := none
  strict := false
  parsed := 0
  fieldcount := 0
  buffer := []
  current := none
  state := .PREAMBLE
  closed := false
  error := none

/-- `self._delimiter = b"\r\n--" + self.boundary`. -/
def delimiter (p : PushParser) : Bytes := [13, 10, 45, 45] ++ p.boundary

/-- Does `count` exceed a possibly-infinite cap? -/
def overCap (count : Nat) : Option Nat → Bool
  | none => false
  | some cap => count > cap

/-- The field values a fresh `MultipartSegment` starts from. -/
def freshSegment (p : PushParser) : MultipartSegment :=
  { headerlist := [], name := none, filename := none, content_type := none,
    charset := none, size := 0, complete := false, clen := -1,
    size_limit := p.max_segment_size }

/-- The `MultipartSegment.__init__` constructor: enforces
`max_segment_count` against the parser's current `_fieldcount` (the caller
increments the count on success, mirroring `parser._fieldcount += 1`). -/
def newSegment (p : PushParser) (fieldcount : Nat) : Except Err MultipartSegment :=
  if overCap (fieldcount + 1) p.max_segment_count then
    .error (.ParserLimitReached "Maximum segment count exceeded")
  else
    .ok (freshSegment p)

/-- `MultipartSegment._add_headerline(line)`. -/
def addHeaderLine (p : PushParser) (seg : MultipartSegment) (line : Bytes) :
    Except Err MultipartSegment :=
  let step : Except Err (Bytes × List (PyStr × PyStr)) :=
    if line.head? = some 32 ∨ line.head? = some 9 then
      -- multi-line header value (folded continuation)
      if seg.headerlist = [] ∨ p.strict then
        .error (.StrictParserError "Unexpected segment header continuation")
      else
        match seg.headerlist.getLast? with
        | none => .error (.runtime "unreachable")
        | some (n, v) =>
          let prev := n ++ str2chars ": " ++ v
          .ok (utf8Encode prev ++ [32] ++ bytesStrip line, seg.headerlist.dropLast)
    else .ok (line, seg.headerlist)
  match step with
  | .error e => .error e
  | .ok (line, hl) =>
    if line.length > p.max_header_size then
      .error (.ParserLimitReached "Maximum segment header length exceeded")
    else if hl.length ≥ p.max_header_count then
      .error (.ParserLimitReached "Maximum segment header count exceeded")
    else
      match utf8Decode line with
      | none => .error (.ParserError "Segment header failed to decode")
      | some s =>
        let (name0, col, value) := pyPartition s ':'
        let name := pyStrip name0
        if col = false ∨ name = [] then
          .error (.ParserError "Malformed segment header")
        else if name.contains ' ' ∨ pyIsAscii name = false ∨ pyIsPrintable name = false then
          .error (.ParserError "Invalid segment header name")
        else
          .ok { seg with headerlist := hl ++ [(pyTitle name, pyStrip value)] }

/-- The `for h, v in self.headerlist` loop of `_close_headers`. -/
def closeHeadersLoop (strict : Bool) (seg : MultipartSegment) :
    List (PyStr × PyStr) → Except Err MultipartSegment
  | [] => .ok seg
  | (h, v) :: rest =>
    if h = str2chars "Content-Disposition" then
      let (dtype, args) := parse_options_header v content_disposition_unquote
      if dtype ≠ str2chars "form-data" then
        .error (.ParserError "Invalid Content-Disposition segment header: Wrong type")
      else if (dGet args (str2chars "name")).isNone ∧ strict then
        .error (.StrictParserError
          "Invalid Content-Disposition segment header: Missing name option")
      else
        closeHeadersLoop strict
          { seg with name := some ((dGet args (str2chars "name")).getD []),
                     filename := dGet args (str2chars "filename") } rest
    else if h = str2chars "Content-Type" then
      let (ct, args) := parse_options_header v header_unquote
      closeHeadersLoop strict
        { seg with content_type := some ct, charset := dGet args (str2chars "charset") } rest
    else if h = str2chars "Content-Length" ∧ pyIsDecimal v then
      closeHeadersLoop strict { seg with clen := (pyToNat v : Int) } rest
    else
      closeHeadersLoop strict seg rest

/-- `MultipartSegment._close_headers()`. -/
def closeHeaders (p : PushParser) (seg : MultipartSegment) : Except Err MultipartSegment :=
  match closeHeadersLoop p.strict seg seg.headerlist with
  | .error e => .error e
  | .ok s =>
    if s.name = none then
      .error (.ParserError "Missing Content-Disposition segment header")
    else .ok s

/-- `MultipartSegment._update_size(bytecount)`. -/
def updateSize (seg : MultipartSegment) (bytecount : Nat) : Except Err MultipartSegment :=
  let size := seg.size + bytecount
  if 0 ≤ seg.clen ∧ (size : Int) > seg.clen then
    .error (.ParserError "Segment Content-Length exceeded")
  else if overCap size seg.size_limit then
    .error (.ParserLimitReached "Maximum segment size exceeded")
  else .ok { seg with size := size }

/-- `MultipartSegment._mark_complete()`. -/
def markComplete (seg : MultipartSegment) : Except Err MultipartSegment :=
  if 0 ≤ seg.clen ∧ (seg.size : Int) ≠ seg.clen then
    .error (.ParserError "Segment size does not match Content-Length header")
  else .ok { seg with complete := true }

/-- The `for header in self.headerlist` lookup loop shared by
`MultipartSegment.header` and `__getitem__`: the value of the first pair
whose stored name equals `compare`. -/
def headerFind : List (PyStr × PyStr) → PyStr → Option PyStr
  | [], _ => none
  | (n, v) :: rest, compare => if n = compare then some v else headerFind rest compare

/-- `MultipartSegment.header(name, default)`; the `default` argument is an
`Option` (Python's `None` default is `none`). -/
def MultipartSegment.header (seg : MultipartSegment) (name : PyStr)
    (default : Option PyStr) : Option PyStr :=
  match headerFind seg.headerlist (pyTitle name) with
  | some v => some v
  | none => default

/-- `MultipartSegment.__getitem__(name)`: like `header` with the `KeyError`
sentinel as default, so a miss raises `KeyError` (the `.error` case). -/
def MultipartSegment.getitem (seg : MultipartSegment) (name : PyStr) :
    Except String PyStr :=
  match headerFind seg.headerlist (pyTitle name) with
  | some v => .ok v
  | none => .error "KeyError"

/-! ### The `parse` state machine -/

/-- How one run of the `while True` loop of `parse` ended: a `break` (with
the final `offset` — an `Int`, because the preamble branch can compute a
negative offset — and the loop-carried state), or a raised exception. -/
inductive LoopRes where
  | done (offset : Int) (state : PState) (current : Option MultipartSegment)
      (fieldcount : Nat)
  | fail (e : Err)
  | noFuel
deriving DecidableEq, Repr

/-- The shared no-match tail of the BODY state: emit everything except a
window large enough to hold a delimiter whose tail straddles the chunk
border, then wait for more data. -/
def bodyFlush (p : PushParser) (buffer : Bytes) (offset : Nat) (seg : MultipartSegment)
    (fieldcount : Nat) : List Event × LoopRes :=
  let chunk_end := buffer.length - ((delimiter p).length + 1)
  match updateSize seg (chunk_end - offset) with
  | .error e => ([], .fail e)
  | .ok seg2 =>
    ([.bodyChunk (bslice buffer offset chunk_end)],
     .done (chunk_end : Int) .BODY (some seg2) fieldcount)

/-- Prepend an event to the result of a deeper loop iteration (the event
was yielded before the iteration ran). -/
def consEv (e : Event) : List Event × LoopRes → List Event × LoopRes
  | (evs, r) => (e :: evs, r)

/-- The `while True` loop of `parse`, one constructor application per
iteration, with the events yielded so far (events before an exception were
already delivered to the consumer of the generator).  `buffer` is the
concatenation of the retained buffer and the new chunk and is not modified
while the loop runs. -/
def parseLoop (p : PushParser) (buffer : Bytes) :
    Nat → Nat → PState → Option MultipartSegment → Nat → List Event × LoopRes
  | 0, _, _, _, _ => ([], .noFuel)
  | fuel + 1, offset, pstate, current, fieldcount =>
    let delim := delimiter p
    let dlen := delim.length
    let blen := buffer.length
    match pstate with
    | .PREAMBLE =>
      -- scan for the first delimiter (its CRLF prefix is optional here)
      match bfind buffer (delim.drop 2) offset with
      | some index =>
        if index > 0 ∧ ¬ (index ≥ 2 ∧ bslice buffer (index - 2) index = [13, 10]) then
          ([], .fail (.ParserError "Unexpected byte in front of first boundary"))
        else
          let next_start := index + dlen
          let tail := bslice buffer (next_start - 2) next_start
          if tail = [13, 10] then
            match newSegment p fieldcount with
            | .error e => ([], .fail e)
            | .ok seg =>
              parseLoop p buffer fuel next_start .HEADER (some seg) (fieldcount + 1)
          else if tail = [45, 45] then
            ([], .done (next_start : Int) .COMPLETE current fieldcount)
          else if tail.take 1 = [10] then
            ([], .fail (.ParserError "Invalid line break after first boundary"))
          else if tail.length = 2 then
            ([], .fail (.ParserError "Unexpected byte after first boundary"))
          else
            ([], .done ((blen : Int) - (dlen + 2)) .PREAMBLE current fieldcount)
      | none =>
        if p.strict ∧ blen ≥ dlen then
          ([], .fail (.StrictParserError "Boundary not found in first chunk"))
        else
          ([], .done ((blen : Int) - (dlen + 2)) .PREAMBLE current fieldcount)
    | .HEADER =>
      match current with
      | none => ([], .fail (.runtime "unreachable"))
      | some seg =>
        match bfind buffer [13, 10] offset with
        | some nl =>
          if nl > offset then
            -- non-empty header line
            match addHeaderLine p seg (bslice buffer offset nl) with
            | .error e => ([], .fail e)
            | .ok seg2 => parseLoop p buffer fuel (nl + 2) .HEADER (some seg2) fieldcount
          else
            -- empty line: end of the header section
            match closeHeaders p seg with
            | .error e => ([], .fail e)
            | .ok seg2 =>
              consEv (.segment seg2)
                (parseLoop p buffer fuel (offset + 2) .BODY (some seg2) fieldcount)
        | none =>
          if bfind buffer [10] offset ≠ none then
            ([], .fail (.ParserError "Invalid line break in segment header"))
          else if blen - offset > p.max_header_size then
            ([], .fail (.ParserLimitReached "Maximum segment header length exceeded"))
          else ([], .done (offset : Int) .HEADER (some seg) fieldcount)
    | .BODY =>
      match current with
      | none => ([], .fail (.runtime "unreachable"))
      | some seg =>
        if offset + dlen + 2 > blen then
          -- not enough data to fit a delimiter
          ([], .done (offset : Int) .BODY (some seg) fieldcount)
        else
          match bfind buffer delim offset with
          | none => bodyFlush p buffer offset seg fieldcount
          | some index =>
            let next_start := index + dlen + 2
            let tail := bslice buffer (next_start - 2) next_start
            if tail = [13, 10] ∨ tail = [45, 45] then
              if index > offset then
                match updateSize seg (index - offset) with
                | .error e => ([], .fail e)
                | .ok seg2 =>
                  match markComplete seg2 with
                  | .error e => ([.bodyChunk (bslice buffer offset index)], .fail e)
                  | .ok seg3 =>
                    if tail = [45, 45] then
                      ([.bodyChunk (bslice buffer offset index), .eos],
                       .done (next_start : Int) .COMPLETE (some seg3) fieldcount)
                    else
                      match newSegment p fieldcount with
                      | .error e => ([.bodyChunk (bslice buffer offset index), .eos], .fail e)
                      | .ok nseg =>
                        consEv (.bodyChunk (bslice buffer offset index)) (consEv .eos
                          (parseLoop p buffer fuel next_start .HEADER (some nseg) (fieldcount + 1)))
              else
                match markComplete seg with
                | .error e => ([], .fail e)
                | .ok seg3 =>
                  if tail = [45, 45] then
                    ([.eos], .done (next_start : Int) .COMPLETE (some seg3) fieldcount)
                  else
                    match newSegment p fieldcount with
                    | .error e => ([.eos], .fail e)
                    | .ok nseg =>
                      consEv .eos
                        (parseLoop p buffer fuel next_start .HEADER (some nseg) (fieldcount + 1))
            else bodyFlush p buffer offset seg fieldcount
    | .COMPLETE => ([], .fail (.runtime "Unexpected internal state"))

/-- The value of one `parse` call: the yielded events, the parser state
after the call, and the raised error if any (events yielded before the
raise were already consumed). -/
structure ParseResult where
  events : List Event
  parser : PushParser
  error : Option Err
deriving DecidableEq, Repr

/-- The `except` handler of `parse`: latch the first error, close without
the completeness check, re-raise. -/
def raiseErr (p : PushParser) (evs : List Event) (e : Err) : ParseResult where
  events := evs
  parser := { p with
    closed := true
    current := none
    buffer := []
    error := (match p.error with | none => some e | some x => some x) }
  error := some e

/-- `PushMultipartParser.close(check_complete)`: returns the closed parser
and the error it raises, if any. -/
def closeParser (p : PushParser) (check_complete : Bool) : PushParser × Option Err :=
  let q := { p with closed := true, current := none, buffer := [] }
  if check_complete ∧ p.state ≠ .COMPLETE then
    let e := Err.ParserError "Unexpected end of multipart stream (parser closed)"
    ({ q with error := (match q.error with | none => some e | some x => some x) }, some e)
  else (q, none)

/-- `PushMultipartParser.parse(chunk)`, with the generator fully drained. -/
def parse (p : PushParser) (chunk : Bytes) : ParseResult :=
  if chunk = [] then
    -- `if not chunk: self.close(); return` — a raise from close() is caught
    -- by the except handler, which finds the error already latched and
    -- closes again (a no-op here).
    match closeParser p true with
    | (q, none) => ⟨[], q, none⟩
    | (q, some e) => ⟨[], q, some e⟩
  else if p.closed then
    raiseErr p [] (.ParserStateError "Parser closed")
  else if p.content_length > -1 ∧
      p.content_length < (p.parsed : Int) + p.buffer.length + chunk.length then
    raiseErr p [] (.ParserError "Content-Length limit exceeded")
  else if p.state = .COMPLETE then
    if p.strict then
      raiseErr p [] (.StrictParserError "Unexpected data after end of multipart stream")
    else ⟨[], p, none⟩
  else
    let buffer := p.buffer ++ chunk
    let (evs, res) := parseLoop p buffer (buffer.length + 1) 0 p.state p.current p.fieldcount
    match res with
    | .fail e => raiseErr p evs e
    | .noFuel => raiseErr p evs .fuel
    | .done off st cur fc =>
      let q := { p with
        state := st
        current := cur
        fieldcount := fc
        parsed := if off > 0 then p.parsed + off.toNat else p.parsed
        buffer := if off > 0 then buffer.drop off.toNat else buffer }
      ⟨evs, q, none⟩

/-! ### Event-stream observations -/

/-- The body-chunk payloads of an event list, in order. -/
def bodyChunks (evs : List Event) : List Bytes :=
  evs.filterMap (fun e => match e with | .bodyChunk b => some b | _ => none)

/-- Accumulator pass for `segmentBodies`: `acc` is `some bytes` while we are
between a `segment` event and its `eos` sentinel. -/
def segBodiesAux : List Event → Option Bytes → List Bytes
  | [], _ => []
  | .segment _ :: r, _ => segBodiesAux r (some [])
  | .bodyChunk _ :: r, none => segBodiesAux r none
  | .bodyChunk b :: r, some acc => segBodiesAux r (some (acc ++ b))
  | .eos :: r, none => segBodiesAux r none
  | .eos :: r, some acc => acc :: segBodiesAux r none

/-- For each segment of the event stream that received both its `segment`
event and its `eos` sentinel, the concatenation of the body chunks emitted
in between. -/
def segmentBodies (evs : List Event) : List Bytes := segBodiesAux evs none

/-! ### Sanity checks (spec section 8, concrete scenarios) -/

/-- Scenario 1: simple text field; the parser completes and the single
segment's body is exactly `hello`. -/
theorem sanity_scenario1 :
    let r := parse (initParser (strToBytes "foo"))
      (strToBytes "--foo\r\nContent-Disposition: form-data; name=\"a\"\r\n\r\nhello\r\n--foo--")
    r.error = none ∧ r.parser.state = .COMPLETE ∧
      segmentBodies r.events = [strToBytes "hello"] := by decide

/-- Scenario 6-like: with `max_segment_size = 4`, a 5-byte body fails with
the segment-size limit error. -/
theorem sanity_limit :
    (parse { initParser (strToBytes "foo") with max_segment_size := some 4 }
      (strToBytes "--foo\r\nContent-Disposition: form-data; name=\"a\"\r\n\r\n12345\r\n--foo--")).error
      = some (.ParserLimitReached "Maximum segment size exceeded") := by decide

/-! ### Claims -/

/-- C3.  Completeness at end of input: an empty-chunk push always closes the
parser; it returns without error exactly when the state is COMPLETE, and
otherwise raises the `ParserError` with the unexpected-end diagnostic. -/
theorem claim_C3_completeness (p : PushParser) :
    (parse p []).parser.closed = true ∧
    (p.state = .COMPLETE → (parse p []).error = none) ∧
    (p.state ≠ .COMPLETE →
      (parse p []).error =
        some (.ParserError "Unexpected end of multipart stream (parser closed)")) := by
  unfold parse closeParser
  by_cases h : p.state = .COMPLETE <;> simp [h]

/-- Witness for C3 at a concrete parser that is not COMPLETE. -/
theorem claim_C3_witness :
    (initParser (strToBytes "b")).state ≠ .COMPLETE ∧
    (parse (initParser (strToBytes "b")) []).error =
      some (.ParserError "Unexpected end of multipart stream (parser closed)") :=
  ⟨by decide, (claim_C3_completeness (initParser (strToBytes "b"))).2.2 (by decide)⟩

/-- C5.  The claim says non-CRLF data directly in front of the first
boundary is only an error in strict mode.  The code raises the
`ParserError` unconditionally: on the repository's own test input
`junk--boundary--` (test_junk_before) a non-strict parser fails, although
that test expects the non-strict run to succeed. -/
theorem claim_C5_code_bug :
    (initParser (strToBytes "boundary")).strict = false ∧
    (parse (initParser (strToBytes "boundary")) (strToBytes "junk--boundary--")).error =
      some (.ParserError "Unexpected byte in front of first boundary") := by decide

/-- C6.  Data after the terminator: a non-empty push into a COMPLETE,
not-closed parser that passes the content-length pre-check raises the
strict `data after end` error in strict mode and is silently ignored
(no events, no error, unchanged state) otherwise. -/
theorem claim_C6_data_after_end (p : PushParser) (c : Bytes) (hc : c ≠ [])
    (hst : p.state = .COMPLETE) (hcl : p.closed = false)
    (hlen : ¬ (p.content_length > -1 ∧
      p.content_length < (p.parsed : Int) + p.buffer.length + c.length)) :
    (p.strict = true →
      parse p c = raiseErr p [] (.StrictParserError "Unexpected data after end of multipart stream")) ∧
    (p.strict = false → parse p c = ⟨[], p, none⟩) := by
  unfold parse
  by_cases hs : p.strict <;> simp [hc, hst, hcl, hlen, hs]

/-- Witness for C6 at a concrete COMPLETE parser (both strictness values). -/
theorem claim_C6_witness :
    let q : PushParser := { initParser (strToBytes "b") with state := .COMPLETE }
    parse q [106] = ⟨[], q, none⟩ :=
  (claim_C6_data_after_end { initParser (strToBytes "b") with state := .COMPLETE } [106]
    (by decide) (by decide) (by decide) (by decide)).2 (by decide)

/-- C7 counterexample.  The claim states that once the state is COMPLETE,
*every* push of a non-empty chunk raises an error.  A non-strict parser
that has just consumed a terminator is COMPLETE and not closed, yet a
non-empty push returns without any error. -/
theorem claim_C7_counterexample :
    let q := (parse (initParser (strToBytes "boundary")) (strToBytes "--boundary--")).parser
    q.state = .COMPLETE ∧ q.closed = false ∧ q.strict = false ∧
      (parse q (strToBytes "junk")).error = none := by decide

/-- C7 (amended).  COMPLETE is terminal — no parse call ever changes the
state away from COMPLETE — and a non-empty push into a COMPLETE parser
raises only for a strict parser (or for the closed / content-length
pre-checks); a non-strict one ignores the data without events or error. -/
theorem claim_C7_amended (p : PushParser) (c : Bytes) (h : p.state = .COMPLETE) :
    (parse p c).parser.state = .COMPLETE ∧
    (p.strict = true → p.closed = false →
      ¬ (p.content_length > -1 ∧
        p.content_length < (p.parsed : Int) + p.buffer.length + c.length) →
      c ≠ [] →
      (parse p c).error =
        some (.StrictParserError "Unexpected data after end of multipart stream")) := by
  by_cases hc : c = []
  · subst hc
    unfold parse closeParser
    simp [h]
  · by_cases hcl : p.closed
    · unfold parse raiseErr
      simp [hc, hcl, h]
    · by_cases hlen : p.content_length > -1 ∧
          p.content_length < (p.parsed : Int) + p.buffer.length + c.length
      · unfold parse raiseErr
        simp [hc, hcl, h, hlen]
      · by_cases hs : p.strict
        · unfold parse raiseErr
          simp [hc, hcl, h, hlen, hs]
        · unfold parse
          simp [hc, hcl, h, hlen, hs]

/-- Witness for C7 (amended) at a concrete strict COMPLETE parser. -/
theorem claim_C7_amended_witness :
    let q : PushParser := { initParser (strToBytes "b") with state := .COMPLETE, strict := true }
    (parse q [106]).parser.state = .COMPLETE ∧
      (parse q [106]).error =
        some (.StrictParserError "Unexpected data after end of multipart stream") :=
  let q : PushParser := { initParser (strToBytes "b") with state := .COMPLETE, strict := true }
  let h := claim_C7_amended q [106] (by decide)
  ⟨h.1, h.2 (by decide) (by decide) (by decide) (by decide)⟩

/-- C8 counterexample.  The claim states that *any* call to `parse` on a
closed parser fails with the `ParserStateError`.  But an empty chunk is
handled before the closed check: on a closed parser that reached COMPLETE,
`parse(b"")` returns with no error at all. -/
theorem claim_C8_counterexample :
    let q := (parse (parse (initParser (strToBytes "boundary"))
      (strToBytes "--boundary--")).parser []).parser
    q.closed = true ∧ (parse q []).error = none := by decide

/-- C8 (amended).  A closed parser rejects every *non-empty* chunk with the
`ParserStateError "Parser closed"`; an empty chunk instead re-runs close,
which succeeds silently when the state is COMPLETE and raises the
unexpected-end `ParserError` (not a `ParserStateError`) otherwise. -/
theorem claim_C8_amended (p : PushParser) (c : Bytes) (h : p.closed = true) :
    (c ≠ [] → parse p c = raiseErr p [] (.ParserStateError "Parser closed")) ∧
    (p.state = .COMPLETE → (parse p []).error = none) ∧
    (p.state ≠ .COMPLETE →
      (parse p []).error =
        some (.ParserError "Unexpected end of multipart stream (parser closed)")) := by
  refine ⟨?_, (claim_C3_completeness p).2.1, (claim_C3_completeness p).2.2⟩
  intro hc
  unfold parse
  simp [hc, h]

/-- Witness for C8 (amended) at a concrete closed parser and non-empty chunk. -/
theorem claim_C8_amended_witness :
    let q : PushParser := { initParser (strToBytes "b") with closed := true }
    parse q [106] = raiseErr q [] (.ParserStateError "Parser closed") :=
  (claim_C8_amended { initParser (strToBytes "b") with closed := true } [106]
    (by decide)).1 (by decide)

/-- C9.  Per-segment Content-Length enforcement: with a declared length,
an update that pushes the accumulated size beyond it fails with the
Content-Length `ParserError` (this branch precedes the `max_segment_size`
check, so it wins regardless of `size_limit`), and at the terminating
boundary a size that differs from the declared length makes
`_mark_complete` fail with the size-mismatch `ParserError` instead of
marking the segment complete. -/
theorem claim_C9_content_length (seg : MultipartSegment) (n : Nat) (h : 0 ≤ seg.clen) :
    (((seg.size + n : Nat) : Int) > seg.clen →
      updateSize seg n = .error (.ParserError "Segment Content-Length exceeded")) ∧
    ((seg.size : Int) ≠ seg.clen →
      markComplete seg = .error (.ParserError "Segment size does not match Content-Length header")) := by
  constructor
  · intro hgt
    unfold updateSize
    simp [h]
    intro hle
    exfalso
    push_cast at hgt
    omega
  · intro hne
    unfold markComplete
    simp [h, hne]

/-- Witness for C9 at a concrete segment with `Content-Length: 1`. -/
theorem claim_C9_witness :
    let seg : MultipartSegment :=
      { headerlist := [], name := some [], filename := none, content_type := none,
        charset := none, size := 0, complete := false, clen := 1, size_limit := none }
    updateSize seg 2 = .error (.ParserError "Segment Content-Length exceeded") ∧
      markComplete seg = .error (.ParserError "Segment size does not match Content-Length header") :=
  let seg : MultipartSegment :=
    { headerlist := [], name := some [], filename := none, content_type := none,
      charset := none, size := 0, complete := false, clen := 1, size_limit := none }
  let h := claim_C9_content_length seg 2 (by decide)
  ⟨h.1 (by decide), h.2 (by decide)⟩

/-- C10.  Header accessor: `header(name, default)` returns the value of the
first stored pair whose name equals `name.title()` and the default on a
miss; `segment[name]` raises `KeyError` exactly on a miss; and because the
lookup key is always `name.title()`, any two names with the same Title-Case
normalization give the same answer (case-insensitivity, stored names being
Title-Cased by `_add_headerline`). -/
theorem claim_C10_header_lookup (seg : MultipartSegment) (name : PyStr)
    (default : Option PyStr) :
    (seg.header name default =
      (match seg.headerlist.find? (fun q => q.1 = pyTitle name) with
       | some q => some q.2
       | none => default)) ∧
    (seg.getitem name =
      (match seg.headerlist.find? (fun q => q.1 = pyTitle name) with
       | some q => .ok q.2
       | none => .error "KeyError")) ∧
    (∀ name2, pyTitle name2 = pyTitle name →
      seg.header name2 default = seg.header name default) := by
  have key : ∀ hl : List (PyStr × PyStr), ∀ k : PyStr,
      headerFind hl k =
        (match hl.find? (fun q => q.1 = k) with
         | some q => some q.2
         | none => none) := by
    intro hl k
    induction hl with
    | nil => rfl
    | cons q rest ih =>
      by_cases hq : q.1 = k
      · cases q
        simp_all [headerFind, List.find?]
      · cases q
        simp_all [headerFind, List.find?]
  refine ⟨?_, ?_, ?_⟩
  · unfold MultipartSegment.header
    rw [key]
    cases seg.headerlist.find? (fun q => q.1 = pyTitle name) <;> simp
  · unfold MultipartSegment.getitem
    rw [key]
    cases seg.headerlist.find? (fun q => q.1 = pyTitle name) <;> simp
  · intro name2 ht
    unfold MultipartSegment.header
    rw [ht]



/-- Witness for C10 at a concrete segment: hit, miss (KeyError), and a
differently-cased name giving the same answer. -/
theorem claim_C10_witness :
    let seg : MultipartSegment :=
      { headerlist := [(str2chars "Content-Type", str2chars "text/plain")],
        name := some [], filename := none, content_type := none, charset := none,
        size := 0, complete := false, clen := -1, size_limit := none }
    seg.header (str2chars "content-type") none = some (str2chars "text/plain") ∧
      seg.getitem (str2chars "Missing") = .error "KeyError" ∧
      seg.header (str2chars "CONTENT-TYPE") none = seg.header (str2chars "content-type") none :=
  let seg : MultipartSegment :=
    { headerlist := [(str2chars "Content-Type", str2chars "text/plain")],
      name := some [], filename := none, content_type := none, charset := none,
      size := 0, complete := false, clen := -1, size_limit := none }
  ⟨by rw [(claim_C10_header_lookup seg (str2chars "content-type") none).1]; decide,
   by rw [(claim_C10_header_lookup seg (str2chars "Missing") none).2.1]; rfl,
   (claim_C10_header_lookup seg (str2chars "content-type") none).2.2
     (str2chars "CONTENT-TYPE") (by decide)⟩

/-- `consEv` only prepends an event; the loop result is unchanged. -/
theorem consEv_snd (e : Event) (r : List Event × LoopRes) : (consEv e r).2 = r.2 := by
  cases r; rfl

/-- When `bodyFlush` breaks, the final offset is `bufferlen - (d_len + 1)`. -/
theorem bodyFlush_snd_done (p : PushParser) (buffer : Bytes) (offset : Nat)
    (seg : MultipartSegment) (fc : Nat) (off : Int) (st : PState)
    (cur : Option MultipartSegment) (fc' : Nat)
    (h : (bodyFlush p buffer offset seg fc).2 = .done off st cur fc') :
    off = ((buffer.length - ((delimiter p).length + 1) : Nat) : Int) := by
  unfold bodyFlush at h
  dsimp only at h
  split at h <;> simp_all

/-- If the loop breaks in the BODY state, the unconsumed window
`bufferlen - offset` is at most `len(delimiter) + 1` bytes. -/
theorem parseLoop_done_BODY_bound (p : PushParser) (buffer : Bytes) :
    ∀ fuel offset pstate cur fc off cur' fc',
      (parseLoop p buffer fuel offset pstate cur fc).2 = .done off .BODY cur' fc' →
      0 ≤ off ∧ buffer.length - off.toNat ≤ (delimiter p).length + 1 := by
  intro fuel
  induction fuel with
  | zero =>
    intro offset pstate cur fc off cur' fc' h
    simp [parseLoop] at h
  | succ fuel ih =>
    intro offset pstate cur fc off cur' fc' h
    rw [parseLoop.eq_def] at h
    cases pstate
    case PREAMBLE =>
      dsimp only at h
      split at h
      · -- delimiter suffix found
        split at h
        · simp at h
        · split at h
          · -- tail CRLF: new segment, recurse into HEADER
            split at h
            · simp at h
            · exact ih _ _ _ _ _ _ _ h
          · split at h
            · simp at h    -- done COMPLETE, not BODY
            · split at h
              · simp at h
              · split at h
                · simp at h
                · simp at h  -- done PREAMBLE, not BODY
      · -- not found
        split at h
        · simp at h
        · simp at h
    case HEADER =>
      dsimp only at h
      split at h
      · -- current = none
        simp at h
      · split at h
        · -- CRLF found
          split at h
          · -- header line
            split at h
            · simp at h
            · exact ih _ _ _ _ _ _ _ h
          · -- empty line
            split at h
            · simp at h
            · rw [consEv_snd] at h
              exact ih _ _ _ _ _ _ _ h
        · -- no CRLF
          split at h
          · simp at h
          · split at h
            · simp at h
            · -- done HEADER, not BODY
              simp at h
    case BODY =>
      dsimp only at h
      split at h
      · simp at h   -- current = none
      · split at h
        · -- wait for more data: done offset BODY
          rename_i hguard _
          simp only [LoopRes.done.injEq] at h
          obtain ⟨h1, _, _, _⟩ := h
          subst h1
          constructor
          · positivity
          · simp only [Int.toNat_natCast]
            omega
        · split at h
          · -- bfind none: bodyFlush
            have := bodyFlush_snd_done _ _ _ _ _ _ _ _ _ h
            subst this
            constructor
            · positivity
            · simp only [Int.toNat_natCast]
              omega
          · -- bfind some
            split at h
            · -- valid tail
              split at h
              · -- index > offset
                split at h
                · simp at h
                · split at h
                  · simp at h
                  · split at h
                    · -- terminator: done COMPLETE
                      simp at h
                    · split at h
                      · simp at h
                      · rw [consEv_snd, consEv_snd] at h
                        exact ih _ _ _ _ _ _ _ h
              · split at h
                · simp at h
                · split at h
                  · simp at h
                  · split at h
                    · simp at h
                    · rw [consEv_snd] at h
                      exact ih _ _ _ _ _ _ _ h
            · -- invalid tail: bodyFlush
              have := bodyFlush_snd_done _ _ _ _ _ _ _ _ _ h
              subst this
              constructor
              · positivity
              · simp only [Int.toNat_natCast]
                omega
    case COMPLETE =>
      simp at h

/-- C4.  Bounded buffer: whenever a parse call returns without error and
leaves the parser in the BODY state (in particular after every body-run
flush that waits for more data), the retained buffer holds at most
`len(delimiter) + 2` bytes. -/
theorem claim_C4_bounded_buffer (p : PushParser) (c : Bytes)
    (herr : (parse p c).error = none) (hb : (parse p c).parser.state = .BODY) :
    (parse p c).parser.buffer.length ≤ (delimiter p).length + 2 := by
  by_cases hc : c = []
  · by_cases hs : p.state = .COMPLETE
    · simp [parse, closeParser, hc, hs] at hb
    · simp [parse, closeParser, hc, hs] at herr
  · by_cases hcl : p.closed
    · simp [parse, raiseErr, hc, hcl] at herr
    · by_cases hlen : p.content_length > -1 ∧
        p.content_length < (p.parsed : Int) + p.buffer.length + c.length
      · simp [parse, raiseErr, hc, hcl, hlen] at herr
      · by_cases hst : p.state = .COMPLETE
        · by_cases hstrict : p.strict
          · simp [parse, raiseErr, hc, hcl, hlen, hst, hstrict] at herr
          · simp [parse, hc, hcl, hlen, hst, hstrict] at hb
        · rcases hR : parseLoop p (p.buffer ++ c) ((p.buffer ++ c).length + 1)
            0 p.state p.current p.fieldcount with ⟨evs, res⟩
          cases res with
          | fail e => simp [parse, hc, hcl, hlen, hst, hR, raiseErr, -List.length_append] at herr
          | noFuel => simp [parse, hc, hcl, hlen, hst, hR, raiseErr, -List.length_append] at herr
          | done off st cur fc =>
            simp [parse, hc, hcl, hlen, hst, hR, -List.length_append] at hb ⊢
            have hsnd : (parseLoop p (p.buffer ++ c) ((p.buffer ++ c).length + 1)
                0 p.state p.current p.fieldcount).2 = .done off .BODY cur fc := by
              rw [hR, hb]
            have hbound := parseLoop_done_BODY_bound p (p.buffer ++ c) _ _ _ _ _ _ _ _ hsnd
            simp only [List.length_append] at hbound
            by_cases hpos : off > 0
            · simp only [if_pos hpos, List.length_drop, List.length_append]
              omega
            · simp only [if_neg hpos]
              have h0 : off = 0 := by omega
              subst h0
              simp only [Int.toNat_zero, Nat.sub_zero] at hbound
              simp only [List.length_append]
              omega


/-- Witness for C4: a concrete call that ends inside a segment body. -/
theorem claim_C4_witness :
    let p0 := initParser (strToBytes "foo")
    let c0 := strToBytes "--foo\r\nContent-Disposition: form-data; name=a\r\n\r\nbodybodybodybody"
    (parse p0 c0).error = none ∧ (parse p0 c0).parser.state = .BODY ∧
      (parse p0 c0).parser.buffer.length ≤ (delimiter p0).length + 2 :=
  ⟨by decide, by decide, claim_C4_bounded_buffer _ _ (by decide) (by decide)⟩


/-- Feed a list of chunks in order, accumulating events, final parser and
the first raised error (after which feeding stops, like a caller would). -/
def feedChunks (p : PushParser) (chunks : List Bytes) :
    List Event × PushParser × Option Err :=
  chunks.foldl
    (fun acc c =>
      match acc.2.2 with
      | some _ => acc
      | none =>
        let r := parse acc.2.1 c
        (acc.1 ++ r.events, r.parser, r.error))
    ([], p, none)

/-- A legal one-part input whose body contains the false delimiter match
`\r\n--fooX`. -/
def chunkIndepInput : Bytes := strToBytes
  "--foo\r\nContent-Disposition: form-data; name=a\r\n\r\nA\r\n--fooX still body\r\n--foo--"

/-- `chunkIndepInput` pushed as one chunk, then end-of-input. -/
def chunkIndepOnePiece : List Event × PushParser × Option Err :=
  feedChunks (initParser (strToBytes "foo")) [chunkIndepInput, []]

/-- `chunkIndepInput` pushed one byte at a time, then end-of-input. -/
def chunkIndepByteWise : List Event × PushParser × Option Err :=
  feedChunks (initParser (strToBytes "foo")) (chunkIndepInput.map (fun b => [b]) ++ [[]])

/-- C2.  Chunk independence fails on the code: the legal one-part input
`chunkIndepInput` (its body contains the false delimiter match
`\r\n--fooX`) parses correctly when pushed byte by byte, but pushed as a
single chunk the BODY-state flush after the false match also consumes the
closing `\r\n--foo--` terminator, so the same input ends in the
unexpected-end error instead.  The spec declares the property for every
partition, including single-byte chunks. -/
theorem claim_C2_code_bug :
    chunkIndepByteWise.2.2 = none ∧ chunkIndepByteWise.2.1.state = .COMPLETE ∧
      segmentBodies chunkIndepByteWise.1 = [strToBytes "A\r\n--fooX still body"] ∧
      chunkIndepOnePiece.2.2 =
        some (.ParserError "Unexpected end of multipart stream (parser closed)") ∧
      segmentBodies chunkIndepOnePiece.1 = [] := by decide

/-- `\r\n`. -/
def CRLF : Bytes := [13, 10]

/-- `--`. -/
def DASH2 : Bytes := [45, 45]

/-- One part of an abstract multipart message: its header lines (without
their CRLF terminators) and its raw body bytes. -/
structure MPart where
  headerLines : List Bytes
  body : Bytes
deriving DecidableEq, Repr

/-- Serialized header block: every line followed by CRLF. -/
def serHeaders (lines : List Bytes) : Bytes := lines.flatMap (fun l => l ++ CRLF)

/-- The wire bytes that follow the first `--boundary`: for the empty message
just the terminating `--`; otherwise CRLF, the part's headers, the blank
line, the body, and the next `\r\n--boundary` followed by the rest. -/
def serTail (boundary : Bytes) : List MPart → Bytes
  | [] => DASH2
  | part :: rest =>
    CRLF ++ serHeaders part.headerLines ++ CRLF ++ part.body ++ CRLF ++ DASH2 ++
      boundary ++ serTail boundary rest

/-- The RFC 7578 wire form of an abstract message. -/
def serialize (boundary : Bytes) (msg : List MPart) : Bytes :=
  DASH2 ++ boundary ++ serTail boundary msg

/-- C1 counterexample.  A well-formed two-part message (it is the exact
serialization of two `form-data` parts; part A's body merely contains the
false match `\r\n--fooX`) is pushed in two non-empty chunks, split inside
part B's body.  The run raises no error and reaches COMPLETE, yet the only
completed segment's body-chunk concatenation is not part A's body: the
real delimiter, all of part B's headers and part B's body leak into it,
contradicting the claim's "no delimiter or boundary bytes leaked". -/
theorem claim_C1_counterexample :
    let partA : MPart := ⟨[strToBytes "Content-Disposition: form-data; name=a"],
      strToBytes "A\r\n--fooX!"⟩
    let partB : MPart := ⟨[strToBytes "Content-Disposition: form-data; name=b"],
      strToBytes "B"⟩
    let I := serialize (strToBytes "foo") [partA, partB]
    let r := feedChunks (initParser (strToBytes "foo")) [I.take 113, I.drop 113, []]
    r.2.2 = none ∧ r.2.1.state = .COMPLETE ∧
      segmentBodies r.1 =
        [strToBytes "A\r\n--fooX!\r\n--foo\r\nContent-Disposition: form-data; name=b\r\n\r\nB"] := by
  decide

end Multipart
namespace Multipart

/-- A prefix of `u ++ v` no longer than `u` is a prefix of `u`. -/
theorem prefix_of_append_left {q u v : Bytes} (h : q <+: u ++ v)
    (hl : q.length ≤ u.length) : q <+: u := by
  have h2 := List.prefix_iff_eq_take.mp h
  rw [List.take_append_of_le_length hl] at h2
  exact List.prefix_iff_eq_take.mpr h2

/-- Dropping past a known prefix. -/
theorem drop_of_append (pre X : Bytes) (j : Nat) (hj : pre.length ≤ j) :
    (pre ++ X).drop j = X.drop (j - pre.length) := by
  have h : j = pre.length + (j - pre.length) := by omega
  conv_lhs => rw [h]
  rw [← List.drop_drop, List.drop_left]

/-- `bfindFuel` finds the first match. -/
theorem bfindFuel_eq_some (b pat : Bytes) :
    ∀ (fuel s i : Nat), s ≤ i → i < s + fuel →
      i + pat.length ≤ b.length →
      pat.isPrefixOf (b.drop i) = true →
      (∀ j, s ≤ j → j < i → pat.isPrefixOf (b.drop j) = false) →
      bfindFuel b pat fuel s = some i := by
  intro fuel
  induction fuel with
  | zero => intro s i h1 h2; omega
  | succ fuel ih =>
    intro s i h1 h2 hfit hm hmin
    by_cases hsi : s = i
    · subst hsi
      unfold bfindFuel
      rw [if_pos hfit, if_pos hm]
    · have hlt : s < i := by omega
      unfold bfindFuel
      rw [if_pos (by omega), hmin s (by omega) hlt]
      simp only [Bool.false_eq_true, if_false]
      exact ih (s + 1) i (by omega) (by omega) hfit hm
        (fun j hj1 hj2 => hmin j (by omega) hj2)

/-- `bfind` finds the first match. -/
theorem bfind_eq_some (b pat : Bytes) (s i : Nat) (h1 : s ≤ i)
    (hfit : i + pat.length ≤ b.length)
    (hm : pat.isPrefixOf (b.drop i) = true)
    (hmin : ∀ j, s ≤ j → j < i → pat.isPrefixOf (b.drop j) = false) :
    bfind b pat s = some i :=
  bfindFuel_eq_some b pat (b.length + 1) s i h1 (by omega) hfit hm hmin

/-- A pattern sitting right at the search start is found there. -/
theorem bfind_here (pre pat rest : Bytes) :
    bfind (pre ++ (pat ++ rest)) pat pre.length = some pre.length := by
  apply bfind_eq_some _ _ _ _ (le_refl _)
  · simp
  · rw [List.drop_left, List.isPrefixOf_iff_prefix]
    exact List.prefix_append pat rest
  · intro j hj1 hj2
    omega

/-- `bslice` of the exact middle component of an append. -/
theorem bslice_mid (pre mid rest : Bytes) :
    bslice (pre ++ (mid ++ rest)) pre.length (pre.length + mid.length) = mid := by
  unfold bslice
  rw [List.drop_left, Nat.add_sub_cancel_left, List.take_left]

/-- Finding the CRLF that terminates a CR-free header line. -/
theorem bfind_crlf_line (pre line rest : Bytes) (h13 : ¬ 13 ∈ line) :
    bfind (pre ++ (line ++ ([13, 10] ++ rest))) [13, 10] pre.length =
      some (pre.length + line.length) := by
  apply bfind_eq_some _ _ _ _ (by omega)
  · simp
    omega
  · rw [(show pre ++ (line ++ ([13, 10] ++ rest)) = (pre ++ line) ++ ([13, 10] ++ rest) by simp),
      (show pre.length + line.length = (pre ++ line).length by simp),
      List.drop_left, List.isPrefixOf_iff_prefix]
    exact List.prefix_append _ _
  · intro j hj1 hj2
    by_contra hcon
    rw [Bool.not_eq_false, List.isPrefixOf_iff_prefix] at hcon
    rw [drop_of_append _ _ _ hj1] at hcon
    set k := j - pre.length with hk
    have hklt : k < line.length := by omega
    rw [List.drop_append_of_le_length (by omega)] at hcon
    rw [List.drop_eq_getElem_cons hklt, List.cons_append] at hcon
    rw [List.cons_prefix_cons] at hcon
    have hmem := List.getElem_mem hklt
    rw [← hcon.1] at hmem
    exact h13 hmem

/-- No occurrence of `delim` strictly inside `body` (checked against
`body ++ delim`, which also covers occurrences that spill over the edge). -/
def delimFree (delim body : Bytes) : Bool :=
  (List.range body.length).all (fun j => !(delim.isPrefixOf ((body ++ delim).drop j)))

/-- Finding the delimiter that terminates a delimiter-free body. -/
theorem bfind_delim_body (pre body delim rest : Bytes)
    (hfree : delimFree delim body = true) :
    bfind (pre ++ (body ++ (delim ++ rest))) delim pre.length =
      some (pre.length + body.length) := by
  apply bfind_eq_some _ _ _ _ (by omega)
  · simp
    omega
  · rw [(show pre ++ (body ++ (delim ++ rest)) = (pre ++ body) ++ (delim ++ rest) by simp),
      (show pre.length + body.length = (pre ++ body).length by simp),
      List.drop_left, List.isPrefixOf_iff_prefix]
    exact List.prefix_append _ _
  · intro j hj1 hj2
    by_contra hcon
    rw [Bool.not_eq_false, List.isPrefixOf_iff_prefix] at hcon
    rw [drop_of_append _ _ _ hj1] at hcon
    set k := j - pre.length with hk
    have hklt : k < body.length := by omega
    rw [(show body ++ (delim ++ rest) = (body ++ delim) ++ rest by simp),
      List.drop_append_of_le_length (by simp; omega)] at hcon
    have hsub : delim <+: (body ++ delim).drop k := by
      apply prefix_of_append_left hcon
      simp
      omega
    have hall := hfree
    unfold delimFree at hall
    rw [List.all_eq_true] at hall
    have hk2 := hall k (List.mem_range.mpr hklt)
    rw [← List.isPrefixOf_iff_prefix] at hsub
    simp [hsub] at hk2

end Multipart

namespace Multipart

/-- The header lines of one part, processed in order the way the HEADER
state does it. -/
def procLines (p : PushParser) : MultipartSegment → List Bytes → Except Err MultipartSegment
  | seg, [] => .ok seg
  | seg, l :: rest =>
    match addHeaderLine p seg l with
    | .error e => .error e
    | .ok seg2 => procLines p seg2 rest

/-- Process a part's whole header section: every line, then the blank-line
`_close_headers` step. -/
def procHeaders (p : PushParser) (lines : List Bytes) : Except Err MultipartSegment :=
  match procLines p (freshSegment p) lines with
  | .error e => .error e
  | .ok seg => closeHeaders p seg

/-- The event sub-stream one part contributes in a one-shot parse: its
segment (headers closed), its body in a single chunk when non-empty, and
the end-of-segment sentinel. -/
def partEvents (p : PushParser) (part : MPart) : List Event :=
  match procHeaders p part.headerLines with
  | .error _ => []
  | .ok seg =>
    .segment seg :: (if part.body.isEmpty then [] else [.bodyChunk part.body]) ++ [.eos]

/-- The full expected event stream of a message. -/
def msgEvents (p : PushParser) (msg : List MPart) : List Event :=
  msg.flatMap (partEvents p)

/-- Well-formedness of one part, relative to a parser configuration: header
lines are non-empty and CR-free and process without error, the declared
Content-Length (if any) matches the body, the body respects the segment
size limit, and the body contains no occurrence of the delimiter. -/
def wfPart (p : PushParser) (part : MPart) : Bool :=
  part.headerLines.all (fun l => !l.isEmpty && !(l.contains 13)) &&
  (match procHeaders p part.headerLines with
   | .error _ => false
   | .ok seg =>
     (decide (seg.clen < 0) || decide (seg.clen = (part.body.length : Int))) &&
     !(overCap part.body.length p.max_segment_size)) &&
  delimFree (delimiter p) part.body

/-- Well-formedness of a whole message relative to a parser configuration:
every part is well formed, the segment count cap admits all parts, and the
expected content length (if set) admits the whole wire form. -/
def wellFormed (p : PushParser) (msg : List MPart) : Bool :=
  msg.all (wfPart p) && !(overCap msg.length p.max_segment_count) &&
  (decide (p.content_length = -1) ||
    decide (((serialize p.boundary msg).length : Int) ≤ p.content_length))

end Multipart

namespace Multipart

/-- One HEADER-state iteration across a single CR-free, non-empty header
line followed by its CRLF. -/
theorem loop_header_step (p : PushParser) (buffer : Bytes) (l pre rest : Bytes)
    (seg seg2 : MultipartSegment) (fc fuel : Nat)
    (hbuf : buffer = pre ++ (l ++ ([13, 10] ++ rest)))
    (hne : l ≠ []) (h13 : ¬ 13 ∈ l)
    (hadd : addHeaderLine p seg l = .ok seg2) :
    parseLoop p buffer (fuel + 1) pre.length .HEADER (some seg) fc =
      parseLoop p buffer fuel (pre.length + l.length + 2) .HEADER (some seg2) fc := by
  subst hbuf
  rw [parseLoop.eq_def]
  dsimp only
  rw [bfind_crlf_line pre l rest h13]
  dsimp only
  rw [if_pos (by
    have := List.length_pos.mpr hne
    omega)]
  rw [bslice_mid pre l ([13, 10] ++ rest), hadd]

end Multipart

namespace Multipart

/-- `serHeaders` unfolded one line. -/
theorem serHeaders_cons (l : Bytes) (ls : List Bytes) :
    serHeaders (l :: ls) = l ++ ([13, 10] ++ serHeaders ls) := by
  simp [serHeaders, CRLF]

/-- Walking the HEADER state across a whole block of well-formed header
lines, accumulating them into the segment. -/
theorem loop_header_lines (p : PushParser) (buffer : Bytes) :
    ∀ (lines : List Bytes) (seg segF : MultipartSegment) (pre rest : Bytes) (fc fuel : Nat),
      buffer = pre ++ (serHeaders lines ++ rest) →
      (∀ l ∈ lines, l ≠ [] ∧ ¬ 13 ∈ l) →
      procLines p seg lines = .ok segF →
      buffer.length - pre.length < fuel →
      ∃ fuel', buffer.length - (pre.length + (serHeaders lines).length) < fuel' ∧
        parseLoop p buffer fuel pre.length .HEADER (some seg) fc =
          parseLoop p buffer fuel' (pre.length + (serHeaders lines).length) .HEADER (some segF) fc := by
  intro lines
  induction lines with
  | nil =>
    intro seg segF pre rest fc fuel hbuf hwf hproc hfuel
    refine ⟨fuel, ?_, ?_⟩
    · simpa [serHeaders] using hfuel
    · unfold procLines at hproc
      simp at hproc
      subst hproc
      simp [serHeaders]
  | cons l ls ih =>
    intro seg segF pre rest fc fuel hbuf hwf hproc hfuel
    obtain ⟨hne, h13⟩ := hwf l (by simp)
    unfold procLines at hproc
    rcases hadd : addHeaderLine p seg l with e | seg2
    · rw [hadd] at hproc; simp at hproc
    · rw [hadd] at hproc
      dsimp only at hproc
      have hbuf2 : buffer = pre ++ (l ++ ([13, 10] ++ (serHeaders ls ++ rest))) := by
        rw [hbuf, serHeaders_cons]
        simp
      have hlen : buffer.length - pre.length > 0 := by
        rw [hbuf2]
        simp only [List.length_append, List.length_cons, List.length_nil]
        omega
      rcases fuel with _ | fuel
      · omega
      rw [loop_header_step p buffer l pre (serHeaders ls ++ rest) seg seg2 fc fuel
        hbuf2 hne h13 hadd]
      have hbuf3 : buffer = (pre ++ l ++ [13, 10]) ++ (serHeaders ls ++ rest) := by
        rw [hbuf2]; simp
      have hfuel3 : buffer.length - (pre ++ l ++ [13, 10]).length < fuel := by
        rw [hbuf3] at hfuel ⊢
        simp at hfuel ⊢
        omega
      obtain ⟨fuel', hf1, hf2⟩ := ih seg2 segF (pre ++ l ++ [13, 10]) rest fc fuel hbuf3
        (fun q hq => hwf q (by simp [hq])) hproc hfuel3
      have hsh : (serHeaders (l :: ls)).length = l.length + 2 + (serHeaders ls).length := by
        rw [serHeaders_cons]
        simp
        omega
      refine ⟨fuel', ?_, ?_⟩
      · simp only [List.length_append, List.length_cons, List.length_nil] at hf1
        omega
      · have hoff : pre.length + (serHeaders (l :: ls)).length =
            pre.length + l.length + 2 + (serHeaders ls).length := by omega
        rw [hoff]
        simp only [List.length_append, List.length_cons, List.length_nil] at hf2
        convert hf2 using 3

end Multipart

namespace Multipart

/-- `updateSize` succeeds when both guards pass. -/
theorem updateSize_ok (seg : MultipartSegment) (n : Nat)
    (hclen : ¬ (0 ≤ seg.clen ∧ ((seg.size + n : Nat) : Int) > seg.clen))
    (hsz : overCap (seg.size + n) seg.size_limit = false) :
    updateSize seg n = .ok { seg with size := seg.size + n } := by
  unfold updateSize
  rw [if_neg hclen, hsz]
  simp

/-- `markComplete` succeeds when the length guard passes. -/
theorem markComplete_ok (seg : MultipartSegment)
    (h : ¬ (0 ≤ seg.clen ∧ (seg.size : Int) ≠ seg.clen)) :
    markComplete seg = .ok { seg with complete := true } := by
  unfold markComplete
  rw [if_neg h]

/-- `newSegment` succeeds below the segment count cap. -/
theorem newSegment_ok (p : PushParser) (fc : Nat)
    (h : overCap (fc + 1) p.max_segment_count = false) :
    newSegment p fc = .ok (freshSegment p) := by
  unfold newSegment
  rw [h]
  simp

/-- `bslice` starting right after a known prefix is a `take`. -/
theorem bslice_after (C X : Bytes) (k : Nat) :
    bslice (C ++ X) C.length (C.length + k) = X.take k := by
  unfold bslice
  rw [List.drop_left, Nat.add_sub_cancel_left]

/-- `serTail` is never shorter than two bytes. -/
theorem serTail_length_ge (b : Bytes) (msg : List MPart) :
    2 ≤ (serTail b msg).length := by
  cases msg with
  | nil => simp [serTail, DASH2]
  | cons q rest => simp [serTail, CRLF]

end Multipart

namespace Multipart

/-- One BODY-state iteration over a delimiter-free body that is terminated
by the final `\r\n--boundary--`: the loop emits the whole body (when
non-empty) and the end-of-segment sentinel and stops in COMPLETE having
consumed the entire buffer. -/
theorem loop_body_last (p : PushParser) (buffer preB body : Bytes)
    (seg : MultipartSegment) (fc fuel : Nat)
    (hbuf : buffer = preB ++ (body ++ (delimiter p ++ [45, 45])))
    (hfree : delimFree (delimiter p) body = true)
    (hsize0 : seg.size = 0)
    (hclen : seg.clen < 0 ∨ seg.clen = (body.length : Int))
    (hsz : overCap body.length seg.size_limit = false) :
    ∃ seg2, parseLoop p buffer (fuel + 1) preB.length .BODY (some seg) fc =
      ((if body.isEmpty then [] else [.bodyChunk body]) ++ [.eos],
       .done (buffer.length : Int) .COMPLETE (some seg2) fc) := by
  have hblen : buffer.length = preB.length + body.length + (delimiter p).length + 2 := by
    rw [hbuf]; simp only [List.length_append, List.length_cons, List.length_nil]; omega
  have hfind : bfind buffer (delimiter p) preB.length = some (preB.length + body.length) := by
    rw [hbuf]; exact bfind_delim_body preB body (delimiter p) [45, 45] hfree
  have htail : bslice buffer (preB.length + body.length + (delimiter p).length + 2 - 2)
      (preB.length + body.length + (delimiter p).length + 2) = [45, 45] := by
    rw [hbuf,
      (show preB ++ (body ++ (delimiter p ++ [45, 45])) =
        (preB ++ (body ++ delimiter p)) ++ [45, 45] by simp),
      (show preB.length + body.length + (delimiter p).length + 2 - 2 =
        (preB ++ (body ++ delimiter p)).length by
          simp only [List.length_append]; omega),
      (show preB.length + body.length + (delimiter p).length + 2 =
        (preB ++ (body ++ delimiter p)).length + 2 by
          simp only [List.length_append]; omega),
      bslice_after]
    rfl
  have hchunk : bslice buffer preB.length (preB.length + body.length) = body := by
    rw [hbuf]; exact bslice_mid preB body (delimiter p ++ [45, 45])
  rw [parseLoop.eq_def]
  dsimp only
  rw [if_neg (by omega), hfind]
  dsimp only
  rw [htail]
  rw [if_pos (by simp)]
  by_cases hbody : body = []
  · subst hbody
    rw [if_neg (by simp)]
    rw [markComplete_ok seg (by
      simp only [List.length_nil] at hclen
      rw [hsize0]
      omega)]
    dsimp only
    rw [if_pos rfl]
    refine ⟨{ seg with complete := true }, ?_⟩
    simp only [List.isEmpty_nil, if_pos, List.nil_append]
    rw [hblen]
  · rw [if_pos (by
      have := List.length_pos.mpr hbody
      omega)]
    rw [(show preB.length + body.length - preB.length = body.length by omega)]
    rw [updateSize_ok seg body.length (by
        rw [hsize0]
        rcases hclen with h | h <;> omega)
      (by rw [hsize0]; simpa using hsz)]
    dsimp only
    rw [markComplete_ok { seg with size := seg.size + body.length } (by
      dsimp only
      rw [hsize0]
      rcases hclen with h | h <;> omega)]
    dsimp only
    rw [if_pos rfl, hchunk]
    refine ⟨{ seg with size := seg.size + body.length, complete := true }, ?_⟩
    rw [(show (List.isEmpty body) = false by simpa using hbody)]
    simp only [Bool.false_eq_true, if_false]
    rw [(show ((preB.length + body.length + (delimiter p).length + 2 : Nat) : Int) =
      ((buffer.length : Nat) : Int) by rw [hblen])]
    simp

end Multipart

namespace Multipart

/-- `consEv` as a pair. -/
theorem consEv_eq (e : Event) (r : List Event × LoopRes) :
    consEv e r = (e :: r.1, r.2) := by cases r; rfl

/-- One BODY-state iteration over a delimiter-free body whose delimiter is
followed by CRLF: the loop emits the body (when non-empty) and the
sentinel, constructs the next segment, and continues in HEADER right after
the CRLF. -/
theorem loop_body_more (p : PushParser) (buffer preB body rest2 : Bytes)
    (seg : MultipartSegment) (fc fuel : Nat)
    (hbuf : buffer = preB ++ (body ++ (delimiter p ++ ([13, 10] ++ rest2))))
    (hfree : delimFree (delimiter p) body = true)
    (hsize0 : seg.size = 0)
    (hclen : seg.clen < 0 ∨ seg.clen = (body.length : Int))
    (hsz : overCap body.length seg.size_limit = false)
    (hcount : overCap (fc + 1) p.max_segment_count = false) :
    parseLoop p buffer (fuel + 1) preB.length .BODY (some seg) fc =
      ((if body.isEmpty then [] else [.bodyChunk body]) ++ .eos ::
         (parseLoop p buffer fuel (preB.length + body.length + (delimiter p).length + 2)
           .HEADER (some (freshSegment p)) (fc + 1)).1,
       (parseLoop p buffer fuel (preB.length + body.length + (delimiter p).length + 2)
         .HEADER (some (freshSegment p)) (fc + 1)).2) := by
  have hblen : buffer.length =
      preB.length + body.length + (delimiter p).length + 2 + rest2.length := by
    rw [hbuf]; simp only [List.length_append, List.length_cons, List.length_nil]; omega
  have hfind : bfind buffer (delimiter p) preB.length = some (preB.length + body.length) := by
    rw [hbuf]; exact bfind_delim_body preB body (delimiter p) ([13, 10] ++ rest2) hfree
  have htail : bslice buffer (preB.length + body.length + (delimiter p).length + 2 - 2)
      (preB.length + body.length + (delimiter p).length + 2) = [13, 10] := by
    rw [hbuf,
      (show preB ++ (body ++ (delimiter p ++ ([13, 10] ++ rest2))) =
        (preB ++ (body ++ delimiter p)) ++ ([13, 10] ++ rest2) by simp),
      (show preB.length + body.length + (delimiter p).length + 2 - 2 =
        (preB ++ (body ++ delimiter p)).length by
          simp only [List.length_append]; omega),
      (show preB.length + body.length + (delimiter p).length + 2 =
        (preB ++ (body ++ delimiter p)).length + 2 by
          simp only [List.length_append]; omega),
      bslice_after]
    simp
  have hchunk : bslice buffer preB.length (preB.length + body.length) = body := by
    rw [hbuf]; exact bslice_mid preB body (delimiter p ++ ([13, 10] ++ rest2))
  rw [parseLoop.eq_def]
  dsimp only
  rw [if_neg (by omega), hfind]
  dsimp only
  rw [htail]
  rw [if_pos (by simp)]
  by_cases hbody : body = []
  · subst hbody
    rw [if_neg (by simp)]
    rw [markComplete_ok seg (by
      simp only [List.length_nil] at hclen
      rw [hsize0]
      omega)]
    dsimp only
    rw [if_neg (by simp), newSegment_ok p fc hcount]
    dsimp only
    rw [consEv_eq]
    simp
  · rw [if_pos (by
      have := List.length_pos.mpr hbody
      omega)]
    rw [(show preB.length + body.length - preB.length = body.length by omega)]
    rw [updateSize_ok seg body.length (by
        rw [hsize0]
        rcases hclen with h | h <;> omega)
      (by rw [hsize0]; simpa using hsz)]
    dsimp only
    rw [markComplete_ok { seg with size := seg.size + body.length } (by
      dsimp only
      rw [hsize0]
      rcases hclen with h | h <;> omega)]
    dsimp only
    rw [if_neg (by simp), newSegment_ok p fc hcount]
    dsimp only
    rw [hchunk, consEv_eq, consEv_eq]
    rw [(show (List.isEmpty body) = false by simpa using hbody)]
    simp

end Multipart

namespace Multipart

/-- The HEADER-state iteration at the blank line that closes the header
section: emit the segment and continue in BODY. -/
theorem loop_header_close (p : PushParser) (buffer preH rest : Bytes)
    (seg segC : MultipartSegment) (fc fuel : Nat)
    (hbuf : buffer = preH ++ ([13, 10] ++ rest))
    (hclose : closeHeaders p seg = .ok segC) :
    parseLoop p buffer (fuel + 1) preH.length .HEADER (some seg) fc =
      (.segment segC :: (parseLoop p buffer fuel (preH.length + 2) .BODY (some segC) fc).1,
       (parseLoop p buffer fuel (preH.length + 2) .BODY (some segC) fc).2) := by
  subst hbuf
  rw [parseLoop.eq_def]
  dsimp only
  rw [bfind_here preH [13, 10] rest]
  dsimp only
  rw [if_neg (by omega), hclose]
  dsimp only
  rw [consEv_eq]

/-- Unpack `wfPart` into its four guarantees. -/
theorem wfPart_spec (p : PushParser) (part : MPart) (h : wfPart p part = true) :
    (∀ l ∈ part.headerLines, l ≠ [] ∧ ¬ 13 ∈ l) ∧
    (∃ seg, procHeaders p part.headerLines = .ok seg ∧
      (seg.clen < 0 ∨ seg.clen = (part.body.length : Int)) ∧
      overCap part.body.length p.max_segment_size = false) ∧
    delimFree (delimiter p) part.body = true := by
  unfold wfPart at h
  rw [Bool.and_eq_true, Bool.and_eq_true] at h
  obtain ⟨⟨hlines, hmid⟩, hfree⟩ := h
  refine ⟨?_, ?_, hfree⟩
  · intro l hl
    rw [List.all_eq_true] at hlines
    have := hlines l hl
    rw [Bool.and_eq_true] at this
    constructor
    · simpa using this.1
    · simpa using this.2
  · rcases hp : procHeaders p part.headerLines with e | seg
    · rw [hp] at hmid; simp at hmid
    · rw [hp] at hmid
      dsimp only at hmid
      rw [Bool.and_eq_true] at hmid
      have hor := hmid.1
      simp only [Bool.or_eq_true, decide_eq_true_eq] at hor
      exact ⟨seg, rfl, hor, by simpa using hmid.2⟩

/-- `addHeaderLine` never touches the size-tracking fields. -/
theorem addHeaderLine_state (p : PushParser) (seg seg2 : MultipartSegment) (l : Bytes)
    (h : addHeaderLine p seg l = .ok seg2) :
    seg2.size = seg.size ∧ seg2.size_limit = seg.size_limit := by
  unfold addHeaderLine at h
  repeat' first | split at h | dsimp only at h
  all_goals simp at h
  all_goals subst h
  all_goals exact ⟨rfl, rfl⟩

/-- `procLines` never touches the size-tracking fields. -/
theorem procLines_state (p : PushParser) :
    ∀ (lines : List Bytes) (seg segF : MultipartSegment),
      procLines p seg lines = .ok segF →
      segF.size = seg.size ∧ segF.size_limit = seg.size_limit := by
  intro lines
  induction lines with
  | nil =>
    intro seg segF h
    unfold procLines at h
    simp at h
    subst h
    exact ⟨rfl, rfl⟩
  | cons l ls ih =>
    intro seg segF h
    unfold procLines at h
    rcases hadd : addHeaderLine p seg l with e | seg2
    · rw [hadd] at h; simp at h
    · rw [hadd] at h
      dsimp only at h
      have h1 := addHeaderLine_state p seg seg2 l hadd
      have h2 := ih seg2 segF h
      exact ⟨h2.1.trans h1.1, h2.2.trans h1.2⟩

/-- `closeHeadersLoop` never touches the size-tracking fields. -/
theorem closeHeadersLoop_state (strict : Bool) :
    ∀ (hl : List (PyStr × PyStr)) (seg segF : MultipartSegment),
      closeHeadersLoop strict seg hl = .ok segF →
      segF.size = seg.size ∧ segF.size_limit = seg.size_limit := by
  intro hl
  induction hl with
  | nil =>
    intro seg segF h
    unfold closeHeadersLoop at h
    simp at h
    subst h
    exact ⟨rfl, rfl⟩
  | cons q rest ih =>
    intro seg segF h
    unfold closeHeadersLoop at h
    rcases q with ⟨n, v⟩
    dsimp only at h
    split at h
    · split at h
      · simp at h
      · split at h
        · simp at h
        · have := ih _ _ h
          simpa using this
    · split at h
      · have := ih _ _ h
        simpa using this
      · split at h
        · have := ih _ _ h
          simpa using this
        · exact ih _ _ h

/-- `procHeaders` produces a segment with zero size and the parser's
segment size limit. -/
theorem procHeaders_state (p : PushParser) (lines : List Bytes) (seg : MultipartSegment)
    (h : procHeaders p lines = .ok seg) :
    seg.size = 0 ∧ seg.size_limit = p.max_segment_size := by
  unfold procHeaders at h
  rcases hpl : procLines p (freshSegment p) lines with e | segMid
  · rw [hpl] at h; simp at h
  · rw [hpl] at h
    dsimp only at h
    have h1 := procLines_state p lines (freshSegment p) segMid hpl
    unfold closeHeaders at h
    rcases hcl : closeHeadersLoop p.strict segMid segMid.headerlist with e | segF
    · rw [hcl] at h; simp at h
    · rw [hcl] at h
      dsimp only at h
      split at h
      · simp at h
      · simp at h
        subst h
        have h2 := closeHeadersLoop_state p.strict segMid.headerlist segMid segF hcl
        refine ⟨?_, ?_⟩
        · rw [h2.1, h1.1]; rfl
        · rw [h2.2, h1.2]; rfl

end Multipart

namespace Multipart

/-- `overCap` is monotone in the count. -/
theorem overCap_mono (i j : Nat) (cap : Option Nat) (hij : i ≤ j)
    (h : overCap j cap = false) : overCap i cap = false := by
  cases cap with
  | none => rfl
  | some c =>
    simp [overCap] at h ⊢
    omega

/-- Split `procHeaders` into its two stages. -/
theorem procHeaders_split (p : PushParser) (lines : List Bytes) (segC : MultipartSegment)
    (h : procHeaders p lines = .ok segC) :
    ∃ segMid, procLines p (freshSegment p) lines = .ok segMid ∧
      closeHeaders p segMid = .ok segC := by
  unfold procHeaders at h
  rcases hx : procLines p (freshSegment p) lines with e | sm
  · rw [hx] at h; simp at h
  · rw [hx] at h
    exact ⟨sm, rfl, h⟩

/-- Running the loop from the HEADER entry of a part processes that part
and all following parts, ending in COMPLETE with the whole buffer
consumed and the canonical event stream emitted. -/
theorem loop_from_header (p : PushParser) (buffer : Bytes) :
    ∀ (msg : List MPart) (part : MPart) (pre : Bytes) (fc fuel : Nat),
      wfPart p part = true →
      (∀ q ∈ msg, wfPart p q = true) →
      overCap (fc + msg.length) p.max_segment_count = false →
      buffer = pre ++ (serHeaders part.headerLines ++
        ([13, 10] ++ (part.body ++ (delimiter p ++ serTail p.boundary msg)))) →
      buffer.length - pre.length < fuel →
      ∃ seg2, parseLoop p buffer fuel pre.length .HEADER (some (freshSegment p)) fc =
        (partEvents p part ++ msgEvents p msg,
         .done (buffer.length : Int) .COMPLETE (some seg2) (fc + msg.length)) := by
  intro msg
  induction msg with
  | nil =>
    intro part pre fc fuel hwfp hwfm hcount hbuf hfuel
    obtain ⟨hlines, ⟨segC, hproc, hclen, hsz⟩, hfree⟩ := wfPart_spec p part hwfp
    obtain ⟨segMid, hpl, hcl⟩ := procHeaders_split p part.headerLines segC hproc
    rw [(show serTail p.boundary [] = [45, 45] from rfl)] at hbuf
    have hblen : buffer.length = pre.length + (serHeaders part.headerLines).length + 2 +
        part.body.length + (delimiter p).length + 2 := by
      rw [hbuf]
      simp only [List.length_append, List.length_cons, List.length_nil]
      omega
    obtain ⟨fuel1, hfl1, heq1⟩ := loop_header_lines p buffer part.headerLines
      (freshSegment p) segMid pre
      ([13, 10] ++ (part.body ++ (delimiter p ++ [45, 45]))) fc fuel hbuf hlines hpl hfuel
    rw [heq1]
    rcases fuel1 with _ | u
    · omega
    have hbuf2 : buffer = (pre ++ serHeaders part.headerLines) ++
        ([13, 10] ++ (part.body ++ (delimiter p ++ [45, 45]))) := by
      rw [hbuf]; simp
    rw [(show pre.length + (serHeaders part.headerLines).length =
      (pre ++ serHeaders part.headerLines).length from (List.length_append _ _).symm)]
    rw [loop_header_close p buffer (pre ++ serHeaders part.headerLines)
      (part.body ++ (delimiter p ++ [45, 45])) segMid segC fc u hbuf2 hcl]
    rcases u with _ | v
    · omega
    have hbuf3 : buffer = ((pre ++ serHeaders part.headerLines) ++ [13, 10]) ++
        (part.body ++ (delimiter p ++ [45, 45])) := by
      rw [hbuf]; simp
    have hst := procHeaders_state p part.headerLines segC hproc
    obtain ⟨seg2, heq3⟩ := loop_body_last p buffer
      ((pre ++ serHeaders part.headerLines) ++ [13, 10]) part.body segC fc v
      hbuf3 hfree hst.1 hclen (by rw [hst.2]; exact hsz)
    rw [(show (pre ++ serHeaders part.headerLines).length + 2 =
      ((pre ++ serHeaders part.headerLines) ++ [13, 10]).length by
        simp only [List.length_append, List.length_cons, List.length_nil])]
    rw [heq3]
    refine ⟨seg2, ?_⟩
    simp [partEvents, hproc, msgEvents]
  | cons q rest ih =>
    intro part pre fc fuel hwfp hwfm hcount hbuf hfuel
    obtain ⟨hlines, ⟨segC, hproc, hclen, hsz⟩, hfree⟩ := wfPart_spec p part hwfp
    obtain ⟨segMid, hpl, hcl⟩ := procHeaders_split p part.headerLines segC hproc
    have hser : serTail p.boundary (q :: rest) =
        [13, 10] ++ (serHeaders q.headerLines ++ ([13, 10] ++ (q.body ++
          (delimiter p ++ serTail p.boundary rest)))) := by
      simp [serTail, CRLF, DASH2, delimiter]
    rw [hser] at hbuf
    have hblen : buffer.length = pre.length + (serHeaders part.headerLines).length + 2 +
        part.body.length + (delimiter p).length + 2 +
        ((serHeaders q.headerLines).length + 2 + q.body.length + (delimiter p).length +
          (serTail p.boundary rest).length) := by
      rw [hbuf]
      simp only [List.length_append, List.length_cons, List.length_nil]
      omega
    obtain ⟨fuel1, hfl1, heq1⟩ := loop_header_lines p buffer part.headerLines
      (freshSegment p) segMid pre
      ([13, 10] ++ (part.body ++ (delimiter p ++ ([13, 10] ++ (serHeaders q.headerLines ++
        ([13, 10] ++ (q.body ++ (delimiter p ++ serTail p.boundary rest)))))))) fc fuel
      hbuf hlines hpl hfuel
    rw [heq1]
    rcases fuel1 with _ | u
    · omega
    have hbuf2 : buffer = (pre ++ serHeaders part.headerLines) ++
        ([13, 10] ++ (part.body ++ (delimiter p ++ ([13, 10] ++ (serHeaders q.headerLines ++
          ([13, 10] ++ (q.body ++ (delimiter p ++ serTail p.boundary rest)))))))) := by
      rw [hbuf]; simp
    rw [(show pre.length + (serHeaders part.headerLines).length =
      (pre ++ serHeaders part.headerLines).length from (List.length_append _ _).symm)]
    rw [loop_header_close p buffer (pre ++ serHeaders part.headerLines)
      (part.body ++ (delimiter p ++ ([13, 10] ++ (serHeaders q.headerLines ++
        ([13, 10] ++ (q.body ++ (delimiter p ++ serTail p.boundary rest)))))))
      segMid segC fc u hbuf2 hcl]
    rcases u with _ | v
    · omega
    have hbuf3 : buffer = ((pre ++ serHeaders part.headerLines) ++ [13, 10]) ++
        (part.body ++ (delimiter p ++ ([13, 10] ++ (serHeaders q.headerLines ++
          ([13, 10] ++ (q.body ++ (delimiter p ++ serTail p.boundary rest))))))) := by
      rw [hbuf]; simp
    have hst := procHeaders_state p part.headerLines segC hproc
    have hcount1 : overCap (fc + 1) p.max_segment_count = false := by
      apply overCap_mono _ (fc + (q :: rest).length) _ (by simp) hcount
    rw [(show (pre ++ serHeaders part.headerLines).length + 2 =
      ((pre ++ serHeaders part.headerLines) ++ [13, 10]).length by
        simp only [List.length_append, List.length_cons, List.length_nil])]
    rw [loop_body_more p buffer ((pre ++ serHeaders part.headerLines) ++ [13, 10])
      part.body (serHeaders q.headerLines ++ ([13, 10] ++ (q.body ++
        (delimiter p ++ serTail p.boundary rest)))) segC fc v
      hbuf3 hfree hst.1 hclen (by rw [hst.2]; exact hsz) hcount1]
    have hbuf4 : buffer = ((((pre ++ serHeaders part.headerLines) ++ [13, 10]) ++
        (part.body ++ delimiter p)) ++ [13, 10]) ++
        (serHeaders q.headerLines ++ ([13, 10] ++ (q.body ++
          (delimiter p ++ serTail p.boundary rest)))) := by
      rw [hbuf]; simp
    have hcount2 : overCap (fc + 1 + rest.length) p.max_segment_count = false := by
      apply overCap_mono _ (fc + (q :: rest).length) _ (by simp; omega) hcount
    have hfuel4 : buffer.length - ((((pre ++ serHeaders part.headerLines) ++ [13, 10]) ++
        (part.body ++ delimiter p)) ++ [13, 10]).length < v := by
      simp only [List.length_append] at hfl1 ⊢
      simp only [List.length_cons, List.length_nil]
      omega
    obtain ⟨seg2, hrec⟩ := ih q ((((pre ++ serHeaders part.headerLines) ++ [13, 10]) ++
        (part.body ++ delimiter p)) ++ [13, 10]) (fc + 1) v
      (hwfm q (by simp)) (fun r hr => hwfm r (by simp [hr])) hcount2 hbuf4 hfuel4
    have hoff : ((((pre ++ serHeaders part.headerLines) ++ [13, 10]) ++
        (part.body ++ delimiter p)) ++ [13, 10]).length =
        ((pre ++ serHeaders part.headerLines) ++ [13, 10]).length +
        part.body.length + (delimiter p).length + 2 := by
      simp only [List.length_append, List.length_cons, List.length_nil]
      omega
    rw [hoff] at hrec
    rw [hrec]
    refine ⟨seg2, ?_⟩
    rw [(show fc + 1 + rest.length = fc + (q :: rest).length by
      simp only [List.length_cons]; omega)]
    simp [partEvents, hproc, msgEvents]

end Multipart

namespace Multipart

/-- From a fresh PREAMBLE start on the full wire form of a message with
well-formed parts: the loop consumes the opening `--boundary`, then every
part, and stops in COMPLETE with the canonical event stream and the whole
buffer consumed. -/
theorem loop_from_preamble (p : PushParser) (buffer : Bytes) (msg : List MPart)
    (fc fuel : Nat)
    (hwf : ∀ q ∈ msg, wfPart p q = true)
    (hcount : overCap (fc + msg.length) p.max_segment_count = false)
    (hbuf : buffer = ([45, 45] ++ p.boundary) ++ serTail p.boundary msg)
    (hfuel : buffer.length < fuel) :
    ∃ cur, parseLoop p buffer fuel 0 .PREAMBLE none fc =
      (msgEvents p msg, .done (buffer.length : Int) .COMPLETE cur (fc + msg.length)) := by
  rcases fuel with _ | u
  · omega
  have hfind : bfind buffer ((delimiter p).drop 2) 0 = some 0 := by
    rw [(show (delimiter p).drop 2 = [45, 45] ++ p.boundary from rfl), hbuf]
    have h0 := bfind_here [] ([45, 45] ++ p.boundary) (serTail p.boundary msg)
    simpa using h0
  cases msg with
  | nil =>
    refine ⟨none, ?_⟩
    rw [parseLoop.eq_def]
    dsimp only
    rw [hfind]
    dsimp only
    rw [if_neg (by simp)]
    simp only [Nat.zero_add]
    have htail : bslice buffer ((delimiter p).length - 2) (delimiter p).length = [45, 45] := by
      rw [hbuf, (show serTail p.boundary [] = [45, 45] from rfl),
        (show (delimiter p).length - 2 = ([45, 45] ++ p.boundary).length by
          simp only [delimiter, List.length_append, List.length_cons, List.length_nil]
          omega),
        (show (delimiter p).length = ([45, 45] ++ p.boundary).length + 2 by
          simp only [delimiter, List.length_append, List.length_cons, List.length_nil]
          omega),
        bslice_after]
      rfl
    rw [htail]
    rw [if_neg (by decide), if_pos rfl]
    have hlen : (delimiter p).length = buffer.length := by
      rw [hbuf, (show serTail p.boundary [] = [45, 45] from rfl)]
      simp only [delimiter, List.length_append, List.length_cons, List.length_nil]
      omega
    rw [hlen]
    simp [msgEvents]
  | cons part rest =>
    have hser : serTail p.boundary (part :: rest) =
        [13, 10] ++ (serHeaders part.headerLines ++ ([13, 10] ++ (part.body ++
          (delimiter p ++ serTail p.boundary rest)))) := by
      simp [serTail, CRLF, DASH2, delimiter]
    have hc1 : overCap (fc + 1) p.max_segment_count = false :=
      overCap_mono _ (fc + (part :: rest).length) _ (by simp) hcount
    have hc2 : overCap (fc + 1 + rest.length) p.max_segment_count = false :=
      overCap_mono _ (fc + (part :: rest).length) _ (by simp only [List.length_cons]; omega)
        hcount
    have hbuf4 : buffer = (([45, 45] ++ p.boundary) ++ [13, 10]) ++
        (serHeaders part.headerLines ++ ([13, 10] ++ (part.body ++
          (delimiter p ++ serTail p.boundary rest)))) := by
      rw [hbuf, hser]
      simp
    have hfuel4 : buffer.length - (([45, 45] ++ p.boundary) ++ [13, 10]).length < u := by
      rw [hbuf4] at hfuel
      rw [hbuf4]
      simp only [List.length_append, List.length_cons, List.length_nil] at hfuel ⊢
      omega
    obtain ⟨seg2, hrec⟩ := loop_from_header p buffer rest part
      (([45, 45] ++ p.boundary) ++ [13, 10]) (fc + 1) u
      (hwf part (by simp)) (fun q hq => hwf q (by simp [hq])) hc2 hbuf4 hfuel4
    refine ⟨some seg2, ?_⟩
    rw [parseLoop.eq_def]
    dsimp only
    rw [hfind]
    dsimp only
    rw [if_neg (by simp)]
    simp only [Nat.zero_add]
    have htail2 : bslice buffer ((delimiter p).length - 2) (delimiter p).length = [13, 10] := by
      rw [hbuf, hser,
        (show (delimiter p).length - 2 = ([45, 45] ++ p.boundary).length by
          simp only [delimiter, List.length_append, List.length_cons, List.length_nil]
          omega),
        (show (delimiter p).length = ([45, 45] ++ p.boundary).length + 2 by
          simp only [delimiter, List.length_append, List.length_cons, List.length_nil]
          omega),
        bslice_after]
      rw [List.take_append_of_le_length (by simp)]
      rfl
    rw [htail2]
    rw [if_pos rfl]
    rw [newSegment_ok p fc hc1]
    dsimp only
    rw [(show (delimiter p).length = (([45, 45] ++ p.boundary) ++ [13, 10]).length by
      simp only [delimiter, List.length_append, List.length_cons, List.length_nil]
      omega)]
    rw [hrec]
    rw [(show fc + 1 + rest.length = fc + (part :: rest).length by
      simp only [List.length_cons]; omega)]
    simp [msgEvents]

end Multipart

namespace Multipart

/-- The canonical event stream of a message with well-formed parts yields
back exactly the original bodies, one per part. -/
theorem segBodies_msgEvents (p : PushParser) :
    ∀ msg : List MPart, (∀ q ∈ msg, wfPart p q = true) →
      segBodiesAux (msgEvents p msg) none = msg.map MPart.body := by
  intro msg
  induction msg with
  | nil => intro _; rfl
  | cons part rest ih =>
    intro hwf
    obtain ⟨_, ⟨segC, hproc, _, _⟩, _⟩ := wfPart_spec p part (hwf part (by simp))
    have hrest := ih (fun q hq => hwf q (by simp [hq]))
    rcases hE : part.body.isEmpty with _ | _
    · simp only [msgEvents, List.flatMap_cons, partEvents, hproc, hE] at hrest ⊢
      simp [segBodiesAux, hrest]
    · have hb : part.body = [] := by simpa using hE
      simp only [msgEvents, List.flatMap_cons, partEvents, hproc, hE] at hrest ⊢
      simp [segBodiesAux, hrest, hb]

end Multipart

namespace Multipart

/-- C1 (amended): round-trip body preservation, restricted to a well-formed
message (header lines process cleanly, declared Content-Length matches,
size caps respected, and no part body contains the delimiter byte sequence
`\r\n--boundary`) whose exact wire form is pushed in a single chunk to a
fresh parser: the call raises no error, the parser ends in COMPLETE, the
events are the canonical stream, and for every segment the concatenation
of its body chunks is exactly the original body — no CRLF trimmed, no
boundary bytes leaked. -/
theorem claim_C1_amended (p : PushParser) (msg : List MPart)
    (hbuf0 : p.buffer = []) (hst0 : p.state = .PREAMBLE) (hcl0 : p.closed = false)
    (hpar0 : p.parsed = 0) (hfc0 : p.fieldcount = 0) (hcur0 : p.current = none)
    (hwf : wellFormed p msg = true) :
    ∃ q, parse p (serialize p.boundary msg) =
        { events := msgEvents p msg, parser := q, error := none } ∧
      q.state = .COMPLETE ∧
      segmentBodies (msgEvents p msg) = msg.map MPart.body := by
  simp only [wellFormed, Bool.and_eq_true, List.all_eq_true, Bool.or_eq_true,
    Bool.not_eq_true', decide_eq_true_eq] at hwf
  obtain ⟨⟨hparts, hcount⟩, hclen⟩ := hwf
  have hne : serialize p.boundary msg ≠ [] := by
    simp [serialize, DASH2]
  have hbufeq : serialize p.boundary msg =
      ([45, 45] ++ p.boundary) ++ serTail p.boundary msg := rfl
  have hcg : ¬ (p.content_length > -1 ∧ p.content_length <
      (p.parsed : Int) + p.buffer.length + (serialize p.boundary msg).length) := by
    rintro ⟨h1, h2⟩
    rw [hpar0, hbuf0] at h2
    simp only [List.length_nil, Nat.cast_zero] at h2
    rcases hclen with h | h
    · omega
    · omega
  obtain ⟨cur, hloop⟩ := loop_from_preamble p (serialize p.boundary msg) msg 0
    ((serialize p.boundary msg).length + 1) hparts (by simpa using hcount) hbufeq
    (by omega)
  have hparse : ∃ q, parse p (serialize p.boundary msg) =
      { events := msgEvents p msg, parser := q, error := none } ∧
      q.state = PState.COMPLETE := by
    unfold parse
    rw [if_neg hne]
    rw [if_neg (show ¬ p.closed = true by simp [hcl0])]
    rw [if_neg hcg]
    rw [if_neg (show ¬ p.state = PState.COMPLETE by simp [hst0])]
    dsimp only
    rw [hbuf0]
    simp only [List.nil_append]
    rw [hst0, hcur0, hfc0]
    rw [hloop]
    exact ⟨_, rfl, rfl⟩
  obtain ⟨q, hq1, hq2⟩ := hparse
  exact ⟨q, hq1, hq2, segBodies_msgEvents p msg hparts⟩

end Multipart

namespace Multipart

theorem claim_C1_amended_witness :
    let pA : MPart := ⟨[strToBytes "Content-Disposition: form-data; name=a"],
      strToBytes "hello"⟩
    let pB : MPart := ⟨[strToBytes "Content-Disposition: form-data; name=b"],
      strToBytes "world!"⟩
    let p := initParser (strToBytes "foo")
    wellFormed p [pA, pB] = true ∧
    ∃ q, parse p (serialize p.boundary [pA, pB]) =
        { events := msgEvents p [pA, pB], parser := q, error := none } ∧
      q.state = .COMPLETE ∧
      segmentBodies (msgEvents p [pA, pB]) = [pA, pB].map MPart.body :=
  ⟨by decide, claim_C1_amended _ _ rfl rfl rfl rfl rfl rfl (by decide)⟩

end Multipart
